import Mathlib

/-! GhidraSym `addsymbol.cpp`: the line scanner and the symbol table builder

A shallow embedding of `src/addsymbol.cpp`.

* A C string (`const char*`) is the list of its characters before the
  terminating NUL, so `*s == 0` reads "the list is empty" and `s++` drops the
  head.
* `uint64_t` and `uint32_t` values are natural numbers, reduced explicitly
  modulo `2^64` and `2^32` where the C++ arithmetic wraps.
* `std::map<uint64_t, SymbolDef>` is an association list kept in ascending key
  order by `Table.insert`.
* The three `static bool` section flags of `parse_line` are fields of the
  explicit state `PState`; they are the part of that state which outlives one
  run of the `addsym` command.
-/

namespace GhidraSym

/-! ## Data model -/

/-- The `enum SymbolType`. -/
inductive SymbolType where
  | Function
  | Data
  deriving DecidableEq

/-- The `struct SymbolDef`. -/
structure SymbolDef where
  type : SymbolType
  name : List Char
  offset : Nat
  size : Nat
  deriving DecidableEq

/-- The `std::map<uint64_t, SymbolDef>`: key and value pairs, ascending keys. -/
abbrev Table := List (Nat × SymbolDef)

/-- The `symbols.find(k)` lookup: the value stored under `k`, if any. -/
def Table.find : Table → Nat → Option SymbolDef
  | [], _ => none
  | (k', v) :: t, k => if k = k' then some v else Table.find t k

/-- The `symbols[k] = v` assignment: replace the value under `k`, or add the
key at its place in the ascending order. -/
def Table.insert (k : Nat) (v : SymbolDef) : Table → Table
  | [] => [(k, v)]
  | (k', v') :: t =>
    if k < k' then (k, v) :: (k', v') :: t
    else if k = k' then (k, v) :: t
    else (k', v') :: Table.insert k v t

/-- The `it->second.size = sz` write through an iterator that `find(k)`
returned: only the entry under `k` is touched. -/
def Table.setSize (k : Nat) (sz : Nat) : Table → Table
  | [] => []
  | (k', v) :: t =>
    if k = k' then (k', { v with size := sz }) :: t
    else (k', v) :: Table.setSize k sz t

/-- The `it->second.name = nm` write through an iterator that `find(k)`
returned. -/
def Table.setName (k : Nat) (nm : List Char) : Table → Table
  | [] => []
  | (k', v) :: t =>
    if k = k' then (k', { v with name := nm }) :: t
    else (k', v) :: Table.setName k nm t

/-- The keys of a table, in storage order. -/
def Table.keys (t : Table) : List Nat := t.map Prod.fst

/-- The `std::map` ordering invariant: strictly ascending keys. -/
def Table.Ordered (t : Table) : Prop := t.keys.Pairwise (· < ·)

/-! ## Line scanner -/

/-- The first loop of `has_prefix`: skip spaces and tabs. -/
def skip_ws : List Char → List Char
  | [] => []
  | c :: s => if c = ' ' ∨ c = '\t' then skip_ws s else c :: s

/-- The second loop of `has_prefix` with its test `if (*prefix)`: `none` when
the prefix is not exhausted, otherwise the text after the prefix. -/
def match_lit : List Char → List Char → Option (List Char)
  | s, [] => some s
  | [], _ :: _ => none
  | c :: s, q :: p => if c = q then match_lit s p else none

/-- The function `has_prefix`: the new value of `*start` and the result. -/
def has_prefix (start : List Char) (pre : List Char) : List Char × Bool :=
  match match_lit (skip_ws start) pre with
  | some s => (s, true)
  | none => (start, false)

/-- The loop of `skip_to`. The second list is the text at `s`, the third the
part of the literal at `p`; the first is the whole literal `prefix`. The
result is the final `s` and the value of `*p == 0`. -/
def skip_to_loop (pre : List Char) : List Char → List Char → List Char × Bool
  | [], p => ([], p.isEmpty)
  | c :: s, [] => (c :: s, true)
  | c :: s, q :: p =>
    let p1 := if c ≠ q then pre else q :: p
    let p2 := match p1 with
      | [] => []
      | q1 :: r1 => if c = q1 then r1 else p1
    skip_to_loop pre s p2

/-- The function `skip_to`: the new value of `*start` and the result. -/
def skip_to (start : List Char) (pre : List Char) : List Char × Bool :=
  skip_to_loop pre start pre

/-! ## The C library's `strtoull` and `strtoul` in base 16 -/

/-- The value of a hexadecimal digit. -/
def hexDigit (c : Char) : Option Nat :=
  if '0' ≤ c ∧ c ≤ '9' then some (c.toNat - 48)
  else if 'a' ≤ c ∧ c ≤ 'f' then some (c.toNat - 87)
  else if 'A' ≤ c ∧ c ≤ 'F' then some (c.toNat - 55)
  else none

/-- The digits loop of `strtoull`: the exact value of the longest run of
hexadecimal digits at the head of the text, on top of `acc`. -/
def hexRun : Nat → List Char → Nat
  | acc, [] => acc
  | acc, c :: s =>
    match hexDigit c with
    | some d => hexRun (16 * acc + d) s
    | none => acc

/-- The C `isspace` in the "C" locale. -/
def isspace (c : Char) : Bool :=
  c = ' ' || c = '\t' || c = '\n' || c = '\x0b' || c = '\x0c' || c = '\r'

/-- The leading white space that `strtoull` skips. -/
def skip_space : List Char → List Char
  | [] => []
  | c :: s => if isspace c then skip_space s else c :: s

/-- The optional sign of `strtoull`: whether it is `-`, and the rest. -/
def take_sign : List Char → Bool × List Char
  | [] => (false, [])
  | c :: s =>
    if c = '-' then (true, s) else if c = '+' then (false, s) else (false, c :: s)

/-- The optional `0x` or `0X` of base 16. When no digit follows, the value is
that of the lone `0`, which is also the value of the empty run. -/
def take_0x : List Char → List Char
  | c :: d :: s => if c = '0' ∧ (d = 'x' ∨ d = 'X') then s else c :: d :: s
  | s => s

/-- The C `strtoul`/`strtoull` with base 16 for an unsigned type of `w` bits:
white space, sign, `0x`, digits; a value that does not fit gives the largest
value of the type, a `-` negates in the unsigned type, no digits give 0. -/
def strtou (w : Nat) (s : List Char) : Nat :=
  let (neg, s1) := take_sign (skip_space s)
  let v := hexRun 0 (take_0x s1)
  if 2 ^ w ≤ v then 2 ^ w - 1
  else if neg then (2 ^ w - v) % 2 ^ w
  else v

/-- The call `strtoull(s, nullptr, 16)`. -/
def strtoull16 (s : List Char) : Nat := strtou 64 s

/-- The call `strtoul(s, nullptr, 16)`; `unsigned long` has 32 bits on the
Windows targets of this debugger extension. -/
def strtoul16 (s : List Char) : Nat := strtou 32 s

/-- The value of a string of hexadecimal digits. -/
def hexValue (ds : List Char) : Nat := hexRun 0 ds

/-- Every character is a hexadecimal digit. -/
def allHex (ds : List Char) : Prop := ∀ c ∈ ds, (hexDigit c).isSome = true

instance (ds : List Char) : Decidable (allHex ds) := by
  unfold allHex; infer_instance

/-! ## Symbol table builder -/

/-- The state that `parse_line` reads and writes: its three `static` flags,
and the two reference parameters `module_offset` and `symbols`. -/
structure PState where
  in_functions : Bool
  in_data : Bool
  in_symbols : Bool
  module_offset : Nat
  symbols : Table
  deriving DecidableEq

/-- Subtraction of `uint64_t` values. -/
def sub64 (a b : Nat) : Nat := (a + 2 ^ 64 - b % 2 ^ 64) % 2 ^ 64

/-- The test `*s != '/'`. -/
def not_slash : List Char → Bool
  | [] => true
  | c :: _ => c ≠ '/'

/-- The loop `for (; *s != 0 && *s != '"'; s++) os << *s;`: the characters
written to `os`. -/
def read_name : List Char → List Char
  | [] => []
  | c :: s => if c = '"' then [] else c :: read_name s

/-- The same loop: the text at `s` when it ends. -/
def after_name : List Char → List Char
  | [] => []
  | c :: s => if c = '"' then c :: s else after_name s

def PROGRAM_PFX : List Char := "<PROGRAM NAME=\"".toList
def IMAGE_BASE_LIT : List Char := "IMAGE_BASE=\"".toList
def FUNCTIONS_PFX : List Char := "<FUNCTIONS".toList
def DATA_PFX : List Char := "<DATA".toList
def SYMBOL_TABLE_PFX : List Char := "<SYMBOL_TABLE".toList
def FUNCTIONS_END : List Char := "</FUNCTIONS>".toList
def DATA_END : List Char := "</DATA>".toList
def SYMBOL_TABLE_END : List Char := "</SYMBOL_TABLE>".toList
def FUNCTION_PFX : List Char := "<FUNCTION ENTRY_POINT=\"".toList
def NAME_Q_LIT : List Char := "\" NAME=\"".toList
def ADDRESS_RANGE_PFX : List Char := "<ADDRESS_RANGE START=\"".toList
def END_LIT : List Char := "\" END=\"".toList
def DEFINED_DATA_PFX : List Char := "<DEFINED_DATA ADDRESS=\"".toList
def SIZE_LIT : List Char := "\" SIZE=\"0x".toList
def SYMBOL_PFX : List Char := "<SYMBOL ADDRESS=\"".toList
def NAME_LIT : List Char := " NAME=\"".toList
def NAMESPACE_LIT : List Char := " NAMESPACE=\"\"".toList
def TYPE_LIT : List Char := " TYPE=\"global\"".toList
def PRIMARY_LIT : List Char := " PRIMARY=\"y\"".toList

/-- The body of the `<FUNCTION ENTRY_POINT="` branch; `s` is the text after
the prefix. -/
def function_rule (s : List Char) (st : PState) : PState :=
  let offset := sub64 (strtoull16 s) st.module_offset
  match skip_to s NAME_Q_LIT with
  | (s1, true) =>
    { st with symbols :=
        st.symbols.insert offset ⟨SymbolType.Function, read_name s1, offset, 4⟩ }
  | (_, false) => st

/-- The body of the `<ADDRESS_RANGE START="` branch. -/
def address_range_rule (s : List Char) (st : PState) : PState :=
  let start_offset := strtoull16 s
  match skip_to s END_LIT with
  | (s1, true) =>
    let end_offset := strtoull16 s1
    let k := sub64 start_offset st.module_offset
    match st.symbols.find k with
    | some _ =>
      { st with symbols :=
          st.symbols.setSize k (sub64 end_offset start_offset % 2 ^ 32) }
    | none => st
  | (_, false) => st

/-- The body of the `<DEFINED_DATA ADDRESS="` branch. -/
def defined_data_rule (s : List Char) (st : PState) : PState :=
  let offset := sub64 (strtoull16 s) st.module_offset
  match skip_to s SIZE_LIT with
  | (s1, true) =>
    let size := strtoul16 s1
    { st with symbols :=
        st.symbols.insert offset ⟨SymbolType.Data, [], offset, size⟩ }
  | (_, false) => st

/-- The body of the `<SYMBOL ADDRESS="` branch. -/
def symbol_rule (s : List Char) (st : PState) : PState :=
  let offset := sub64 (strtoull16 s) st.module_offset
  match st.symbols.find offset with
  | none => st
  | some _ =>
    match skip_to s NAME_LIT with
    | (_, false) => st
    | (s1, true) =>
      let name := read_name s1
      let s2 := after_name s1
      match skip_to s2 NAMESPACE_LIT with
      | (_, false) => st
      | (s3, true) =>
        match skip_to s3 TYPE_LIT with
        | (_, false) => st
        | (s4, true) =>
          match skip_to s4 PRIMARY_LIT with
          | (_, false) => st
          | (_, true) => { st with symbols := st.symbols.setName offset name }

/-- The function `parse_line`. A failed `has_prefix` leaves `s` at the start
of the line, so every test of the chain reads the whole line. -/
def parse_line (line : List Char) (st : PState) : PState :=
  if st.module_offset = 0 ∧ ( has_prefix line PROGRAM_PFX).2 = true then
    match skip_to ( has_prefix line PROGRAM_PFX).1 IMAGE_BASE_LIT with
    | (s1, true) => { st with module_offset := strtoull16 s1 }
    | (_, false) => st
  else if ( has_prefix line FUNCTIONS_PFX).2 = true then
    { st with in_functions := not_slash ( has_prefix line FUNCTIONS_PFX).1 }
  else if ( has_prefix line DATA_PFX).2 = true then
    { st with in_data := not_slash ( has_prefix line DATA_PFX).1 }
  else if ( has_prefix line SYMBOL_TABLE_PFX).2 = true then
    { st with in_symbols := not_slash ( has_prefix line SYMBOL_TABLE_PFX).1 }
  else if st.in_functions = true ∧ ( has_prefix line FUNCTIONS_END).2 = true then
    { st with in_functions := false }
  else if st.in_data = true ∧ ( has_prefix line DATA_END).2 = true then
    { st with in_data := false }
  else if st.in_symbols = true ∧ ( has_prefix line SYMBOL_TABLE_END).2 = true then
    { st with in_symbols := false }
  else if st.in_functions = true ∧ ( has_prefix line FUNCTION_PFX).2 = true then
    function_rule ( has_prefix line FUNCTION_PFX).1 st
  else if st.in_functions = true ∧ ( has_prefix line ADDRESS_RANGE_PFX).2 = true then
    address_range_rule ( has_prefix line ADDRESS_RANGE_PFX).1 st
  else if st.in_data = true ∧ ( has_prefix line DEFINED_DATA_PFX).2 = true then
    defined_data_rule ( has_prefix line DEFINED_DATA_PFX).1 st
  else if st.in_symbols = true ∧ ( has_prefix line SYMBOL_PFX).2 = true then
    symbol_rule ( has_prefix line SYMBOL_PFX).1 st
  else st

/-- Feeding `parse_line` a sequence of lines, in order. -/
def parse_lines (lines : List (List Char)) (st : PState) : PState :=
  lines.foldl (fun acc l => parse_line l acc) st

/-- The state before the first line of the first run: the initialisers of the
three `static` flags, `uint64_t offset = 0` and the empty map. -/
def PState.init : PState := ⟨false, false, false, 0, []⟩

/-! ## The `addsym` command -/

/-- One call of `AddSyntheticSymbol`: the address, the size and the name. -/
structure Request where
  address : Nat
  size : Nat
  name : List Char
  deriving DecidableEq

/-- The three `static` flags of `parse_line`: the storage that lives as long
as the loaded extension, across runs of the command. -/
structure Statics where
  in_functions : Bool
  in_data : Bool
  in_symbols : Bool
  deriving DecidableEq

/-- The initialisers of the three `static` flags, run once. -/
def Statics.init : Statics := ⟨false, false, false⟩

/-- The loop `while (getline(fs, buff))` of `addsym`: `i` counts the lines read
so far and `intr i` is the answer of `GetInterrupt() == S_OK` before line `i`
is parsed. -/
def parse_loop (intr : Nat → Bool) : Nat → List (List Char) → PState → PState
  | _, [], st => st
  | i, l :: ls, st =>
    if intr i = true then st else parse_loop intr (i + 1) ls (parse_line l st)

/-- The loop `for (auto &it : symbols)` of the registration block: the calls
of `AddSyntheticSymbol` it makes, in order. -/
def register_symbols (imagebase : Nat) : Table → List Request
  | [] => []
  | (_, symbol) :: t =>
    if symbol.name ≠ [] then
      ⟨(imagebase + symbol.offset) % 2 ^ 64, symbol.size, symbol.name⟩ ::
        register_symbols imagebase t
    else register_symbols imagebase t

/-- What one run of `addsym` leaves behind. -/
structure AddsymResult where
  statics : Statics
  symbols : Table
  requests : List Request
  deriving DecidableEq

/-- One run of the `addsym` command on an opened file with the given lines:
`symbols` starts empty and `offset` at 0, the flags are whatever the statics
hold. -/
def addsym (statics : Statics) (imagebase : Nat) (intr : Nat → Bool)
    (lines : List (List Char)) : AddsymResult :=
  let st := parse_loop intr 0 lines
    ⟨statics.in_functions, statics.in_data, statics.in_symbols, 0, []⟩
  ⟨⟨st.in_functions, st.in_data, st.in_symbols⟩, st.symbols,
    register_symbols imagebase st.symbols⟩

/-- The answer "not interrupted" at every line. -/
def no_interrupt : Nat → Bool := fun _ => false

/-! ## Predicates on lines and literals -/

/-- Only spaces and tabs. -/
def Blank (ws : List Char) : Prop := ∀ c ∈ ws, c = ' ' ∨ c = '\t'

instance (ws : List Char) : Decidable (Blank ws) := by
  unfold Blank; infer_instance

/-- The first character of the literal does not come back strictly inside it:
positions `1 .. n-2` of a literal of length `n` differ from position `0`. -/
def NoSelfOverlap (L : List Char) : Prop := ∀ x ∈ L.head?, x ∉ L.tail.dropLast

instance (L : List Char) : Decidable (NoSelfOverlap L) := by
  unfold NoSelfOverlap; infer_instance

/-- The text `pre` does not end in a part of the literal `x :: L'` that is
followed, inside the literal and before its last character, by `x` again. -/
def NoRiskyEnd (x : Char) (L' : List Char) (pre : List Char) : Prop :=
  ∀ m p : List Char, x :: L' = m ++ x :: p → m ≠ [] → p ≠ [] → ¬ m <:+ pre

/-- An entry whose name is not empty. -/
def named (e : Nat × SymbolDef) : Bool := e.2.name ≠ []

/-- The request that registers one entry. -/
def request_of (imagebase : Nat) (e : Nat × SymbolDef) : Request :=
  ⟨(imagebase + e.2.offset) % 2 ^ 64, e.2.size, e.2.name⟩

/-! ## The example export of the source comments -/

def ex_program : List Char :=
  "<PROGRAM NAME=\"test.exe\" EXE_PATH=\"C:/Tmp/ReversingTest/test.exe\" EXE_FORMAT=\"Portable Executable (PE)\" IMAGE_BASE=\"00400000\">".toList
def ex_function : List Char :=
  "<FUNCTION ENTRY_POINT=\"00401005\" NAME=\"gets_s\" LIBRARY_FUNCTION=\"n\">".toList
def ex_range : List Char :=
  "<ADDRESS_RANGE START=\"00401005\" END=\"00401009\" />".toList
def ex_data : List Char :=
  "<DEFINED_DATA ADDRESS=\"004fee68\" DATATYPE=\"string\" DATATYPE_NAMESPACE=\"/\" SIZE=\"0x18\" />".toList
def ex_symbol : List Char :=
  "<SYMBOL ADDRESS=\"004fee68\" NAME=\"g_UiPool\" NAMESPACE=\"\" TYPE=\"global\" SOURCE_TYPE=\"USER_DEFINED\" PRIMARY=\"y\" />".toList

/-- The eleven lines of the example, in order. -/
def ex_lines : List (List Char) :=
  [ex_program, "<FUNCTIONS>".toList, ex_function, ex_range, "</FUNCTIONS>".toList,
   "<DATA>".toList, ex_data, "</DATA>".toList,
   "<SYMBOL_TABLE>".toList, ex_symbol, "</SYMBOL_TABLE>".toList]

/-- The state after the first six lines of the example: base captured, the
function `gets_s` declared and sized, the data section open. -/
def ex_state_in_data : PState :=
  parse_lines [ex_program, "<FUNCTIONS>".toList, ex_function, ex_range,
    "</FUNCTIONS>".toList, "<DATA>".toList] PState.init

/-- The state after the first nine lines of the example: the function and the
data entry are in the table, the symbol table section is open. -/
def ex_state_in_symbols : PState :=
  parse_lines [ex_program, "<FUNCTIONS>".toList, ex_function, ex_range,
    "</FUNCTIONS>".toList, "<DATA>".toList, ex_data, "</DATA>".toList,
    "<SYMBOL_TABLE>".toList] PState.init

/-- The two lines of a file whose functions section is opened after the
function line and never closed. -/
def unclosed_section_lines : List (List Char) :=
  ["<FUNCTION ENTRY_POINT=\"00401005\" NAME=\"f\">".toList, "<FUNCTIONS>".toList]

/-- A data line in which the attribute before `SIZE` has the value ` SIZE=`. -/
def overlap_data_line : List Char :=
  "<DEFINED_DATA ADDRESS=\"00401005\" DATATYPE=\" SIZE=\" SIZE=\"0x18\" />".toList

/-- A second program line, with another image base. -/
def second_program_line : List Char :=
  "<PROGRAM NAME=\"other.exe\" IMAGE_BASE=\"10000000\">".toList

/-- A table with a named function, an unnamed data entry and a named one. -/
def sample_table : Table :=
  [(0x1005, ⟨SymbolType.Function, "gets_s".toList, 0x1005, 4⟩),
   (0x2000, ⟨SymbolType.Data, [], 0x2000, 8⟩),
   (0xfee68, ⟨SymbolType.Data, "g_UiPool".toList, 0xfee68, 0x18⟩)]

instance (t : Table) : Decidable (Table.Ordered t) := by
  unfold Table.Ordered; infer_instance

/-! ## Further predicates and sample inputs -/

/-- A space or a tab. -/
def is_blank (c : Char) : Bool := c = ' ' || c = '\t'

/-- The text with its leading space and tab characters removed, as the
contract of `has_prefix` is worded. -/
def leading_blanks_removed (t : List Char) : List Char := t.dropWhile is_blank

/-- A state with the data section open, the other two closed, the base of the
example and the two entries of the example. -/
def sample_state : PState :=
  ⟨false, true, false, 0x400000,
    [(0x1005, ⟨SymbolType.Function, "gets_s".toList, 0x1005, 4⟩),
     (0xfee68, ⟨SymbolType.Data, [], 0xfee68, 0x18⟩)]⟩

/-- Every entry carries, in its `offset` field, the key it is stored under. -/
def Table.KeyedByOffset (t : Table) : Prop := ∀ e ∈ t, e.2.offset = e.1

instance (t : Table) : Decidable (Table.KeyedByOffset t) := by
  unfold Table.KeyedByOffset; infer_instance

/-- The table `t1` comes from `t` by a change under at most one key: there is
a key `k` outside of which the two tables hold the same, every key of `t` is a
key of `t1`, a key of `t1` is `k` or a key of `t`, and `t1` has at most one
entry more. -/
def Table.OneKeyChange (t t1 : Table) : Prop :=
  ∃ k, (∀ j, j ≠ k → t1.find j = t.find j) ∧ (∀ j ∈ t.keys, j ∈ t1.keys) ∧
    (∀ j ∈ t1.keys, j = k ∨ j ∈ t.keys) ∧ t1.length ≤ t.length + 1

/-- The state after `<FUNCTIONS>` and a function `f` declared at address 0,
with no base line before. -/
def state_f_at_zero : PState :=
  parse_lines ["<FUNCTIONS>".toList,
    "<FUNCTION ENTRY_POINT=\"00000000\" NAME=\"f\">".toList] PState.init

/-- A range line for address 0 whose extent does not fit 32 bits. -/
def wide_range_line : List Char :=
  "<ADDRESS_RANGE START=\"00000000\" END=\"100000010\" />".toList

/-! # Lemmas -/

/-! ## Facts about the table operations -/

theorem Table.find_insert_self (k : Nat) (v : SymbolDef) (t : Table) :
    (Table.insert k v t).find k = some v := by
  induction t with
  | nil => simp [Table.insert, Table.find]
  | cons e t ih =>
    obtain ⟨k', v'⟩ := e
    unfold Table.insert
    split_ifs with h1 h2
    · simp [Table.find]
    · simp [Table.find]
    · simp [Table.find, h2, ih]

theorem Table.find_insert_ne (k j : Nat) (v : SymbolDef) (t : Table) (h : j ≠ k) :
    (Table.insert k v t).find j = t.find j := by
  induction t with
  | nil => simp [Table.insert, Table.find, h]
  | cons e t ih =>
    obtain ⟨k', v'⟩ := e
    unfold Table.insert
    split_ifs with h1 h2
    · simp [Table.find, h]
    · subst h2; simp [Table.find, h]
    · simp [Table.find, ih]

theorem Table.find_setSize_self (k sz : Nat) (t : Table) (e : SymbolDef)
    (h : t.find k = some e) :
    (Table.setSize k sz t).find k = some { e with size := sz } := by
  induction t with
  | nil => simp [Table.find] at h
  | cons x t ih =>
    obtain ⟨k', v'⟩ := x
    unfold Table.setSize
    by_cases hk : k = k'
    · subst hk; simp [Table.find] at h ⊢; simp [h]
    · simp [Table.find, hk] at h ⊢; exact ih h

theorem Table.find_setSize_ne (k j sz : Nat) (t : Table) (h : j ≠ k) :
    (Table.setSize k sz t).find j = t.find j := by
  induction t with
  | nil => simp [Table.setSize]
  | cons x t ih =>
    obtain ⟨k', v'⟩ := x
    unfold Table.setSize
    by_cases hk : k = k'
    · subst hk; simp [Table.find, h]
    · simp [Table.find, hk, ih]

theorem Table.find_setName_self (k : Nat) (nm : List Char) (t : Table) (e : SymbolDef)
    (h : t.find k = some e) :
    (Table.setName k nm t).find k = some { e with name := nm } := by
  induction t with
  | nil => simp [Table.find] at h
  | cons x t ih =>
    obtain ⟨k', v'⟩ := x
    unfold Table.setName
    by_cases hk : k = k'
    · subst hk; simp [Table.find] at h ⊢; simp [h]
    · simp [Table.find, hk] at h ⊢; exact ih h

theorem Table.find_setName_ne (k j : Nat) (nm : List Char) (t : Table) (h : j ≠ k) :
    (Table.setName k nm t).find j = t.find j := by
  induction t with
  | nil => simp [Table.setName]
  | cons x t ih =>
    obtain ⟨k', v'⟩ := x
    unfold Table.setName
    by_cases hk : k = k'
    · subst hk; simp [Table.find, h]
    · simp [Table.find, hk, ih]

theorem Table.keys_setSize (k sz : Nat) (t : Table) :
    (Table.setSize k sz t).keys = t.keys := by
  induction t with
  | nil => rfl
  | cons x t ih =>
    obtain ⟨k', v'⟩ := x
    unfold Table.setSize
    by_cases hk : k = k'
    · simp [hk, Table.keys]
    · simp only [hk, if_false]
      simp only [Table.keys, List.map_cons] at ih ⊢
      rw [ih]

theorem Table.keys_setName (k : Nat) (nm : List Char) (t : Table) :
    (Table.setName k nm t).keys = t.keys := by
  induction t with
  | nil => rfl
  | cons x t ih =>
    obtain ⟨k', v'⟩ := x
    unfold Table.setName
    by_cases hk : k = k'
    · simp [hk, Table.keys]
    · simp only [hk, if_false]
      simp only [Table.keys, List.map_cons] at ih ⊢
      rw [ih]

theorem Table.mem_keys_insert (k j : Nat) (v : SymbolDef) (t : Table) :
    j ∈ (Table.insert k v t).keys ↔ j = k ∨ j ∈ t.keys := by
  induction t with
  | nil => simp [Table.insert, Table.keys]
  | cons x t ih =>
    obtain ⟨k', v'⟩ := x
    unfold Table.insert
    split_ifs with h1 h2
    · simp [Table.keys]
    · subst h2; simp [Table.keys]
    · simp only [Table.keys, List.map_cons, List.mem_cons] at ih ⊢
      rw [ih]; tauto

theorem Table.insert_ordered (k : Nat) (v : SymbolDef) (t : Table) (h : t.Ordered) :
    (Table.insert k v t).Ordered := by
  induction t with
  | nil => simp [Table.insert, Table.Ordered, Table.keys]
  | cons x t ih =>
    obtain ⟨k', v'⟩ := x
    have h' : (∀ a ∈ Table.keys t, k' < a) ∧ Table.Ordered t := by
      simpa [Table.Ordered, Table.keys] using h
    unfold Table.insert
    split_ifs with h1 h2
    · simp only [Table.Ordered, Table.keys, List.map_cons, List.pairwise_cons]
      refine ⟨?_, ?_, ?_⟩
      · intro a ha
        rcases List.mem_cons.1 ha with rfl | ha
        · exact h1
        · exact lt_trans h1 (h'.1 a (by simpa [Table.keys] using ha))
      · intro a ha; exact h'.1 a (by simpa [Table.keys] using ha)
      · simpa [Table.Ordered, Table.keys] using h'.2
    · subst h2
      simpa [Table.Ordered, Table.keys] using h
    · have hlt : k' < k := lt_of_le_of_ne (not_lt.1 h1) (Ne.symm h2)
      have ih' := ih h'.2
      simp only [Table.Ordered, Table.keys, List.map_cons, List.pairwise_cons]
      refine ⟨?_, ih'⟩
      intro a ha
      rcases (Table.mem_keys_insert k a v t).1 ha with rfl | ha
      · exact hlt
      · exact h'.1 a ha

theorem Table.mem_keys_of_find (k : Nat) (t : Table) (e : SymbolDef)
    (h : t.find k = some e) : k ∈ Table.keys t := by
  induction t with
  | nil => simp [Table.find] at h
  | cons x t ih =>
    obtain ⟨k', v'⟩ := x
    by_cases hk : k = k'
    · simp [Table.keys, hk]
    · simp only [Table.find, hk, if_false] at h
      have := ih h
      simp only [Table.keys, List.map_cons, List.mem_cons] at this ⊢
      exact Or.inr this

/-- Assigning under a key that an ordered table already holds keeps the keys. -/
theorem Table.keys_insert_of_find (k : Nat) (v : SymbolDef) (t : Table) (e : SymbolDef)
    (hord : Table.Ordered t) (h : t.find k = some e) :
    Table.keys (Table.insert k v t) = Table.keys t := by
  induction t with
  | nil => simp [Table.find] at h
  | cons x t ih =>
    obtain ⟨k', v'⟩ := x
    have h' : (∀ a ∈ Table.keys t, k' < a) ∧ Table.Ordered t := by
      simpa [Table.Ordered, Table.keys] using hord
    unfold Table.insert
    split_ifs with h1 h2
    · exfalso
      have hne : k ≠ k' := Nat.ne_of_lt h1
      simp only [Table.find, hne, if_false] at h
      have := h'.1 k (Table.mem_keys_of_find k t e h)
      omega
    · simp [Table.keys, h2]
    · simp only [Table.find, h2, if_false] at h
      have := ih h'.2 h
      simp only [Table.keys, List.map_cons] at this ⊢
      rw [this]

/-! ## Facts about `skip_to` -/

/-- Once the rest of the literal lies at the cursor, the loop runs through it. -/
theorem skip_to_loop_through (L post : List Char) :
    ∀ q : List Char, skip_to_loop L (q ++ post) q = (post, true) := by
  intro q
  induction q with
  | nil => cases post <;> simp [skip_to_loop]
  | cons c q ih => simpa [skip_to_loop] using ih

/-- One step of the loop, the literal being `x :: L'` and `q :: p` at `p`. -/
theorem skip_to_loop_step (x : Char) (L' : List Char) (c q : Char) (s p : List Char) :
    skip_to_loop (x :: L') (c :: s) (q :: p) =
      skip_to_loop (x :: L') s
        (if c = q then p else if c = x then L' else x :: L') := by
  by_cases h1 : c = q
  · subst h1; simp [skip_to_loop]
  · by_cases h2 : c = x
    · subst h2; simp [skip_to_loop, h1]
    · simp [skip_to_loop, h1, h2]

/-- Soundness of the loop: a `true` result means that the text consumed, put
after the part of the literal already matched, ends with the literal. -/
theorem skip_to_loop_sound (x : Char) (L' : List Char) :
    ∀ (s m p r : List Char), x :: L' = m ++ p →
      skip_to_loop (x :: L') s p = (r, true) →
      ∃ c, s = c ++ r ∧ (x :: L') <:+ m ++ c := by
  intro s
  induction s with
  | nil =>
    intro m p r hL h
    cases p with
    | nil =>
      simp [skip_to_loop] at h
      subst h
      exact ⟨[], rfl, by simp [hL]⟩
    | cons q p => simp [skip_to_loop] at h
  | cons a s ih =>
    intro m p r hL h
    cases p with
    | nil =>
      simp [skip_to_loop] at h
      subst h
      exact ⟨[], rfl, by simp [hL]⟩
    | cons q p =>
      rw [skip_to_loop_step] at h
      by_cases h1 : a = q
      · subst h1
        simp only [if_true] at h
        obtain ⟨c, hc, hs⟩ := ih (m ++ [a]) p r (by simp [hL]) h
        exact ⟨a :: c, by simp [hc], by simpa using hs⟩
      · simp only [h1, if_false] at h
        by_cases h2 : a = x
        · subst h2
          simp only [if_true] at h
          obtain ⟨c, hc, hs⟩ := ih [a] L' r (by simp) h
          refine ⟨a :: c, by simp [hc], ?_⟩
          exact hs.trans (List.suffix_append m (a :: c))
        · simp only [h2, if_false] at h
          obtain ⟨c, hc, hs⟩ := ih [] (x :: L') r (by simp) h
          refine ⟨a :: c, by simp [hc], ?_⟩
          have : c <:+ m ++ a :: c := by
            have := List.suffix_append (m ++ [a]) c
            simpa using this
          exact (by simpa using hs : (x :: L') <:+ c).trans this

/-- Soundness of `skip_to`: on `true` the text consumed ends with the literal. -/
theorem skip_to_sound (s L r : List Char) (h : skip_to s L = (r, true)) :
    ∃ c, s = c ++ r ∧ L <:+ c := by
  cases L with
  | nil =>
    refine ⟨[], ?_, List.suffix_refl _⟩
    cases s <;> simp [skip_to, skip_to_loop] at h <;> simp [h]
  | cons x L' =>
    obtain ⟨c, hc, hs⟩ := skip_to_loop_sound x L' s [] (x :: L') r rfl h
    exact ⟨c, hc, by simpa using hs⟩

/-- A literal that `skip_to` finds occurs in the text. -/
theorem skip_to_true_occurs (s L r : List Char) (h : skip_to s L = (r, true)) :
    L <:+: s ∧ r <:+ s := by
  obtain ⟨c, hc, hs⟩ := skip_to_sound s L r h
  subst hc
  exact ⟨hs.isInfix.trans (List.prefix_append c r).isInfix, List.suffix_append c r⟩

/-- A literal that does not occur in the text is not found. -/
theorem skip_to_false_of_absent (s L : List Char) (h : ¬ L <:+: s) :
    (skip_to s L).2 = false := by
  cases hr : skip_to s L with
  | mk r b =>
    cases b with
    | false => rfl
    | true => exact absurd (skip_to_true_occurs s L r hr).1 h

theorem noRiskyEnd_of_noSelfOverlap (x : Char) (L' pre : List Char)
    (h : NoSelfOverlap (x :: L')) : NoRiskyEnd x L' pre := by
  intro m p hL hm hp _
  have hx : x ∉ L'.dropLast := by simpa [NoSelfOverlap] using h
  cases m with
  | nil => exact hm rfl
  | cons y m =>
    simp only [List.cons_append, List.cons.injEq] at hL
    obtain ⟨-, hL'⟩ := hL
    apply hx
    rw [hL', List.dropLast_append_of_ne_nil _ (by simp)]
    cases p with
    | nil => exact absurd rfl hp
    | cons z p => simp [List.dropLast]

theorem suffix_snoc (m hist : List Char) (c : Char) (h : m <:+ hist) :
    m ++ [c] <:+ hist ++ [c] := by
  obtain ⟨t, ht⟩ := h
  exact ⟨t, by rw [← ht]; simp⟩

/-- Exactness of the loop at the leftmost occurrence. The text read so far is
`hist`, of which the matched part `m` of the literal is the end. -/
theorem skip_to_loop_exact (x : Char) (L' post : List Char) :
    ∀ (pre hist m : List Char) (q : Char) (p : List Char),
      x :: L' = m ++ q :: p → m <:+ hist →
      ¬ (x :: L') <:+: hist ++ pre ++ (x :: L').dropLast →
      NoRiskyEnd x L' (hist ++ pre) →
      skip_to_loop (x :: L') (pre ++ (x :: L') ++ post) (q :: p) = (post, true) := by
  intro pre
  induction pre with
  | nil =>
    intro hist m q p hL hm hno hrisk
    have hgo : skip_to_loop (x :: L') (L' ++ post) L' = (post, true) :=
      skip_to_loop_through (x :: L') post L'
    simp only [List.nil_append, List.cons_append, skip_to_loop_step]
    by_cases h1 : x = q
    · subst h1
      simp only [if_true]
      cases m with
      | nil =>
        simp only [List.nil_append, List.cons.injEq, true_and] at hL
        rw [← hL]; exact hgo
      | cons y m =>
        exfalso
        cases p with
        | nil =>
          apply hno
          have hd : (x :: L').dropLast = y :: m := by
            rw [hL]; exact List.dropLast_concat
          have hy : y = x := by
            simp only [List.cons_append, List.cons.injEq] at hL; exact hL.1.symm
          subst hy
          obtain ⟨h0, hh⟩ := hm
          refine ⟨h0, m, ?_⟩
          rw [hd, List.append_nil, ← hh, hL]
          simp
        | cons z p =>
          exact hrisk (y :: m) (z :: p) hL (by simp) (by simp) (by simpa using hm)
    · simp only [h1, if_false, if_true]
      exact hgo
  | cons c pre ih =>
    intro hist m q p hL hm hno hrisk
    simp only [List.cons_append, skip_to_loop_step]
    have hno' : ¬ (x :: L') <:+: (hist ++ [c]) ++ pre ++ (x :: L').dropLast := by
      simpa using hno
    have hrisk' : NoRiskyEnd x L' ((hist ++ [c]) ++ pre) := by
      simpa using hrisk
    have hfound : ∀ u : List Char, (x :: L') <:+ hist ++ u →
        u <+: c :: pre ++ (x :: L').dropLast → False := by
      intro u hu hpre
      apply hno
      obtain ⟨w, hw⟩ := hpre
      have : (x :: L') <:+: hist ++ u ++ w :=
        hu.isInfix.trans (List.prefix_append _ w).isInfix
      rw [List.append_assoc, List.append_assoc, hw] at *
      simpa [List.append_assoc] using this
    have hc1 : [c] <+: c :: pre ++ (x :: L').dropLast := by
      simp [List.prefix_iff_eq_append]
    by_cases h1 : c = q
    · subst h1
      simp only [if_true]
      cases p with
      | nil =>
        exfalso
        refine hfound [c] ?_ hc1
        rw [hL]
        exact suffix_snoc m hist c hm
      | cons z p =>
        have := ih (hist ++ [c]) (m ++ [c]) z p (by simp [hL]) (suffix_snoc m hist c hm) hno' hrisk'
        simpa using this
    · simp only [h1, if_false]
      by_cases h2 : c = x
      · subst h2
        simp only [if_true]
        cases L' with
        | nil =>
          exfalso
          exact hfound [c] (List.suffix_append hist [c]) hc1
        | cons z p =>
          have := ih (hist ++ [c]) [c] z p (by simp) (List.suffix_append hist [c]) hno' hrisk'
          simpa using this
      · simp only [h2, if_false]
        have := ih (hist ++ [c]) [] x L' (by simp) List.nil_suffix hno' hrisk'
        simpa using this

/-- Exactness of `skip_to` at the leftmost occurrence of the literal. -/
theorem skip_to_exact (x : Char) (L' pre post : List Char)
    (hleft : ¬ (x :: L') <:+: pre ++ (x :: L').dropLast)
    (hrisk : NoRiskyEnd x L' pre) :
    skip_to (pre ++ (x :: L') ++ post) (x :: L') = (post, true) := by
  unfold skip_to
  exact skip_to_loop_exact x L' post pre [] [] x L' rfl List.nil_suffix
    (by simpa using hleft) (by simpa using hrisk)

/-- Among the occurrences of a literal there is a leftmost one, and what
follows any occurrence is the end of what follows the leftmost. -/
theorem exists_leftmost (L : List Char) (hne : L ≠ []) :
    ∀ (n : Nat) (a b T : List Char), a.length ≤ n → T = a ++ L ++ b →
      ∃ pre post, T = pre ++ L ++ post ∧ ¬ L <:+: pre ++ L.dropLast ∧ b <:+ post := by
  intro n
  induction n with
  | zero =>
    intro a b T ha hT
    have ha0 : a = [] := List.length_eq_zero.1 (Nat.le_zero.1 ha)
    subst ha0
    refine ⟨[], b, hT, ?_, List.suffix_refl b⟩
    intro h
    have h1 := h.length_le
    have h2 : L.length ≠ 0 := fun h0 => hne (List.length_eq_zero.1 h0)
    simp at h1
    omega
  | succ n ih =>
    intro a b T ha hT
    by_cases h : L <:+: a ++ L.dropLast
    · obtain ⟨a', b', hab⟩ := h
      have hlen : a'.length + L.length + b'.length = a.length + (L.length - 1) := by
        have := congrArg List.length hab
        simp at this
        omega
      have h2 : L.length ≠ 0 := fun h0 => hne (List.length_eq_zero.1 h0)
      have hT' : T = a' ++ L ++ (b' ++ [L.getLast hne] ++ b) := by
        rw [hT]
        conv_lhs => rw [← List.dropLast_append_getLast hne]
        rw [← List.append_assoc a, ← hab]
        simp
      obtain ⟨pre, post, h1, h3, h4⟩ := ih a' _ T (by omega) hT'
      refine ⟨pre, post, h1, h3, ?_⟩
      exact (List.suffix_append (b' ++ [L.getLast hne]) b).trans h4
    · exact ⟨a, b, hT, h, List.suffix_refl b⟩

/-- For a literal whose first character does not come back inside it,
`skip_to` finds every literal that occurs, and stops no later than the end of
any of its occurrences. -/
theorem skip_to_finds (x : Char) (L' : List Char) (hno : NoSelfOverlap (x :: L'))
    (a b : List Char) :
    ∃ r, skip_to (a ++ (x :: L') ++ b) (x :: L') = (r, true) ∧ b <:+ r := by
  obtain ⟨pre, post, h1, h2, h3⟩ :=
    exists_leftmost (x :: L') (by simp) a.length a b _ le_rfl rfl
  refine ⟨post, ?_, h3⟩
  rw [h1]
  exact skip_to_exact x L' pre post h2 (noRiskyEnd_of_noSelfOverlap x L' pre hno)

/-- The only part of `" SIZE="0x` that is followed inside it by its first
character is `" SIZE=`. -/
theorem noRiskyEnd_size (pre : List Char) (h : ¬ "\" SIZE=".toList <:+ pre) :
    NoRiskyEnd '"' " SIZE=\"0x".toList pre := by
  intro m p hL hm hp hsuf
  have hlen : m.length + 1 + p.length = 10 := by
    have := congrArg List.length hL
    simp at this
    omega
  have hm' : m = ('"' :: " SIZE=\"0x".toList).take m.length := by
    rw [hL]; simp
  have hx : ('"' :: " SIZE=\"0x".toList)[m.length]? = some '"' := by
    rw [hL, List.getElem?_append_right (le_refl _)]; simp
  have hp' : p.length ≠ 0 := fun h0 => hp (List.length_eq_zero.1 h0)
  have hm0 : m.length ≠ 0 := fun h0 => hm (List.length_eq_zero.1 h0)
  have hcases : m.length = 7 := by
    generalize m.length = d at hlen hx hm0
    have hd : d < 9 := by omega
    interval_cases d <;> first | rfl | (exfalso; revert hx; decide) | omega
  rw [hcases] at hm'
  apply h
  rw [hm'] at hsuf
  exact hsuf

/-! ## Facts about `has_prefix` and the dispatch of `parse_line` -/

theorem skip_ws_blank_append (ws s : List Char) (h : Blank ws) :
    skip_ws (ws ++ s) = skip_ws s := by
  induction ws with
  | nil => rfl
  | cons c ws ih =>
    have hc : c = ' ' ∨ c = '\t' := h c (List.mem_cons_self c ws)
    have hws : Blank ws := fun d hd => h d (List.mem_cons_of_mem c hd)
    simp only [List.cons_append, skip_ws, hc, if_true]
    exact ih hws

theorem has_prefix_blank (ws s Q : List Char) (h : Blank ws) :
    has_prefix (ws ++ s) Q =
      match match_lit (skip_ws s) Q with
      | some r => (r, true)
      | none => (ws ++ s, false) := by
  unfold has_prefix
  rw [skip_ws_blank_append ws s h]

theorem match_lit_self (P rest : List Char) :
    match_lit (P ++ rest) P = some rest := by
  induction P with
  | nil => cases rest <;> rfl
  | cons c P ih => simpa [match_lit] using ih

theorem has_prefix_blank_self (ws P rest : List Char) (h : Blank ws)
    (hP : skip_ws (P ++ rest) = P ++ rest) :
    has_prefix (ws ++ (P ++ rest)) P = (rest, true) := by
  rw [has_prefix_blank ws (P ++ rest) P h, hP, match_lit_self]

/-- A line that opens a function entry runs the function rule when the functions section is open, and is ignored otherwise. -/
theorem parse_line_function (ws rest : List Char) (st : PState) (hws : Blank ws) :
    parse_line (ws ++ FUNCTION_PFX ++ rest) st =
      if st.in_functions = true then function_rule rest st else st := by
  have e0 : has_prefix (ws ++ (FUNCTION_PFX ++ rest)) PROGRAM_PFX = (_, false) :=
    has_prefix_blank ws (FUNCTION_PFX ++ rest) PROGRAM_PFX hws
  have e1 : has_prefix (ws ++ (FUNCTION_PFX ++ rest)) FUNCTIONS_PFX = (_, false) :=
    has_prefix_blank ws (FUNCTION_PFX ++ rest) FUNCTIONS_PFX hws
  have e2 : has_prefix (ws ++ (FUNCTION_PFX ++ rest)) DATA_PFX = (_, false) :=
    has_prefix_blank ws (FUNCTION_PFX ++ rest) DATA_PFX hws
  have e3 : has_prefix (ws ++ (FUNCTION_PFX ++ rest)) SYMBOL_TABLE_PFX = (_, false) :=
    has_prefix_blank ws (FUNCTION_PFX ++ rest) SYMBOL_TABLE_PFX hws
  have e4 : has_prefix (ws ++ (FUNCTION_PFX ++ rest)) FUNCTIONS_END = (_, false) :=
    has_prefix_blank ws (FUNCTION_PFX ++ rest) FUNCTIONS_END hws
  have e5 : has_prefix (ws ++ (FUNCTION_PFX ++ rest)) DATA_END = (_, false) :=
    has_prefix_blank ws (FUNCTION_PFX ++ rest) DATA_END hws
  have e6 : has_prefix (ws ++ (FUNCTION_PFX ++ rest)) SYMBOL_TABLE_END = (_, false) :=
    has_prefix_blank ws (FUNCTION_PFX ++ rest) SYMBOL_TABLE_END hws
  have e7 : has_prefix (ws ++ (FUNCTION_PFX ++ rest)) FUNCTION_PFX = (rest, true) :=
    has_prefix_blank_self ws FUNCTION_PFX rest hws rfl
  have e8 : has_prefix (ws ++ (FUNCTION_PFX ++ rest)) ADDRESS_RANGE_PFX = (_, false) :=
    has_prefix_blank ws (FUNCTION_PFX ++ rest) ADDRESS_RANGE_PFX hws
  have e9 : has_prefix (ws ++ (FUNCTION_PFX ++ rest)) DEFINED_DATA_PFX = (_, false) :=
    has_prefix_blank ws (FUNCTION_PFX ++ rest) DEFINED_DATA_PFX hws
  have e10 : has_prefix (ws ++ (FUNCTION_PFX ++ rest)) SYMBOL_PFX = (_, false) :=
    has_prefix_blank ws (FUNCTION_PFX ++ rest) SYMBOL_PFX hws
  rw [List.append_assoc]
  simp only [parse_line, e0, e1, e2, e3, e4, e5, e6, e7, e8, e9, e10]
  by_cases hin : st.in_functions = true <;> simp [hin]

/-- A line that opens an address range runs the range rule when the functions section is open, and is ignored otherwise. -/
theorem parse_line_address_range (ws rest : List Char) (st : PState) (hws : Blank ws) :
    parse_line (ws ++ ADDRESS_RANGE_PFX ++ rest) st =
      if st.in_functions = true then address_range_rule rest st else st := by
  have e0 : has_prefix (ws ++ (ADDRESS_RANGE_PFX ++ rest)) PROGRAM_PFX = (_, false) :=
    has_prefix_blank ws (ADDRESS_RANGE_PFX ++ rest) PROGRAM_PFX hws
  have e1 : has_prefix (ws ++ (ADDRESS_RANGE_PFX ++ rest)) FUNCTIONS_PFX = (_, false) :=
    has_prefix_blank ws (ADDRESS_RANGE_PFX ++ rest) FUNCTIONS_PFX hws
  have e2 : has_prefix (ws ++ (ADDRESS_RANGE_PFX ++ rest)) DATA_PFX = (_, false) :=
    has_prefix_blank ws (ADDRESS_RANGE_PFX ++ rest) DATA_PFX hws
  have e3 : has_prefix (ws ++ (ADDRESS_RANGE_PFX ++ rest)) SYMBOL_TABLE_PFX = (_, false) :=
    has_prefix_blank ws (ADDRESS_RANGE_PFX ++ rest) SYMBOL_TABLE_PFX hws
  have e4 : has_prefix (ws ++ (ADDRESS_RANGE_PFX ++ rest)) FUNCTIONS_END = (_, false) :=
    has_prefix_blank ws (ADDRESS_RANGE_PFX ++ rest) FUNCTIONS_END hws
  have e5 : has_prefix (ws ++ (ADDRESS_RANGE_PFX ++ rest)) DATA_END = (_, false) :=
    has_prefix_blank ws (ADDRESS_RANGE_PFX ++ rest) DATA_END hws
  have e6 : has_prefix (ws ++ (ADDRESS_RANGE_PFX ++ rest)) SYMBOL_TABLE_END = (_, false) :=
    has_prefix_blank ws (ADDRESS_RANGE_PFX ++ rest) SYMBOL_TABLE_END hws
  have e7 : has_prefix (ws ++ (ADDRESS_RANGE_PFX ++ rest)) FUNCTION_PFX = (_, false) :=
    has_prefix_blank ws (ADDRESS_RANGE_PFX ++ rest) FUNCTION_PFX hws
  have e8 : has_prefix (ws ++ (ADDRESS_RANGE_PFX ++ rest)) ADDRESS_RANGE_PFX = (rest, true) :=
    has_prefix_blank_self ws ADDRESS_RANGE_PFX rest hws rfl
  have e9 : has_prefix (ws ++ (ADDRESS_RANGE_PFX ++ rest)) DEFINED_DATA_PFX = (_, false) :=
    has_prefix_blank ws (ADDRESS_RANGE_PFX ++ rest) DEFINED_DATA_PFX hws
  have e10 : has_prefix (ws ++ (ADDRESS_RANGE_PFX ++ rest)) SYMBOL_PFX = (_, false) :=
    has_prefix_blank ws (ADDRESS_RANGE_PFX ++ rest) SYMBOL_PFX hws
  rw [List.append_assoc]
  simp only [parse_line, e0, e1, e2, e3, e4, e5, e6, e7, e8, e9, e10]
  by_cases hin : st.in_functions = true <;> simp [hin]

/-- A line that opens a data definition runs the data rule when the data section is open, and is ignored otherwise. -/
theorem parse_line_defined_data (ws rest : List Char) (st : PState) (hws : Blank ws) :
    parse_line (ws ++ DEFINED_DATA_PFX ++ rest) st =
      if st.in_data = true then defined_data_rule rest st else st := by
  have e0 : has_prefix (ws ++ (DEFINED_DATA_PFX ++ rest)) PROGRAM_PFX = (_, false) :=
    has_prefix_blank ws (DEFINED_DATA_PFX ++ rest) PROGRAM_PFX hws
  have e1 : has_prefix (ws ++ (DEFINED_DATA_PFX ++ rest)) FUNCTIONS_PFX = (_, false) :=
    has_prefix_blank ws (DEFINED_DATA_PFX ++ rest) FUNCTIONS_PFX hws
  have e2 : has_prefix (ws ++ (DEFINED_DATA_PFX ++ rest)) DATA_PFX = (_, false) :=
    has_prefix_blank ws (DEFINED_DATA_PFX ++ rest) DATA_PFX hws
  have e3 : has_prefix (ws ++ (DEFINED_DATA_PFX ++ rest)) SYMBOL_TABLE_PFX = (_, false) :=
    has_prefix_blank ws (DEFINED_DATA_PFX ++ rest) SYMBOL_TABLE_PFX hws
  have e4 : has_prefix (ws ++ (DEFINED_DATA_PFX ++ rest)) FUNCTIONS_END = (_, false) :=
    has_prefix_blank ws (DEFINED_DATA_PFX ++ rest) FUNCTIONS_END hws
  have e5 : has_prefix (ws ++ (DEFINED_DATA_PFX ++ rest)) DATA_END = (_, false) :=
    has_prefix_blank ws (DEFINED_DATA_PFX ++ rest) DATA_END hws
  have e6 : has_prefix (ws ++ (DEFINED_DATA_PFX ++ rest)) SYMBOL_TABLE_END = (_, false) :=
    has_prefix_blank ws (DEFINED_DATA_PFX ++ rest) SYMBOL_TABLE_END hws
  have e7 : has_prefix (ws ++ (DEFINED_DATA_PFX ++ rest)) FUNCTION_PFX = (_, false) :=
    has_prefix_blank ws (DEFINED_DATA_PFX ++ rest) FUNCTION_PFX hws
  have e8 : has_prefix (ws ++ (DEFINED_DATA_PFX ++ rest)) ADDRESS_RANGE_PFX = (_, false) :=
    has_prefix_blank ws (DEFINED_DATA_PFX ++ rest) ADDRESS_RANGE_PFX hws
  have e9 : has_prefix (ws ++ (DEFINED_DATA_PFX ++ rest)) DEFINED_DATA_PFX = (rest, true) :=
    has_prefix_blank_self ws DEFINED_DATA_PFX rest hws rfl
  have e10 : has_prefix (ws ++ (DEFINED_DATA_PFX ++ rest)) SYMBOL_PFX = (_, false) :=
    has_prefix_blank ws (DEFINED_DATA_PFX ++ rest) SYMBOL_PFX hws
  rw [List.append_assoc]
  simp only [parse_line, e0, e1, e2, e3, e4, e5, e6, e7, e8, e9, e10]
  by_cases hin : st.in_data = true <;> simp [hin]

/-- A line that opens a symbol entry runs the name rule when the symbol table section is open, and is ignored otherwise. -/
theorem parse_line_symbol (ws rest : List Char) (st : PState) (hws : Blank ws) :
    parse_line (ws ++ SYMBOL_PFX ++ rest) st =
      if st.in_symbols = true then symbol_rule rest st else st := by
  have e0 : has_prefix (ws ++ (SYMBOL_PFX ++ rest)) PROGRAM_PFX = (_, false) :=
    has_prefix_blank ws (SYMBOL_PFX ++ rest) PROGRAM_PFX hws
  have e1 : has_prefix (ws ++ (SYMBOL_PFX ++ rest)) FUNCTIONS_PFX = (_, false) :=
    has_prefix_blank ws (SYMBOL_PFX ++ rest) FUNCTIONS_PFX hws
  have e2 : has_prefix (ws ++ (SYMBOL_PFX ++ rest)) DATA_PFX = (_, false) :=
    has_prefix_blank ws (SYMBOL_PFX ++ rest) DATA_PFX hws
  have e3 : has_prefix (ws ++ (SYMBOL_PFX ++ rest)) SYMBOL_TABLE_PFX = (_, false) :=
    has_prefix_blank ws (SYMBOL_PFX ++ rest) SYMBOL_TABLE_PFX hws
  have e4 : has_prefix (ws ++ (SYMBOL_PFX ++ rest)) FUNCTIONS_END = (_, false) :=
    has_prefix_blank ws (SYMBOL_PFX ++ rest) FUNCTIONS_END hws
  have e5 : has_prefix (ws ++ (SYMBOL_PFX ++ rest)) DATA_END = (_, false) :=
    has_prefix_blank ws (SYMBOL_PFX ++ rest) DATA_END hws
  have e6 : has_prefix (ws ++ (SYMBOL_PFX ++ rest)) SYMBOL_TABLE_END = (_, false) :=
    has_prefix_blank ws (SYMBOL_PFX ++ rest) SYMBOL_TABLE_END hws
  have e7 : has_prefix (ws ++ (SYMBOL_PFX ++ rest)) FUNCTION_PFX = (_, false) :=
    has_prefix_blank ws (SYMBOL_PFX ++ rest) FUNCTION_PFX hws
  have e8 : has_prefix (ws ++ (SYMBOL_PFX ++ rest)) ADDRESS_RANGE_PFX = (_, false) :=
    has_prefix_blank ws (SYMBOL_PFX ++ rest) ADDRESS_RANGE_PFX hws
  have e9 : has_prefix (ws ++ (SYMBOL_PFX ++ rest)) DEFINED_DATA_PFX = (_, false) :=
    has_prefix_blank ws (SYMBOL_PFX ++ rest) DEFINED_DATA_PFX hws
  have e10 : has_prefix (ws ++ (SYMBOL_PFX ++ rest)) SYMBOL_PFX = (rest, true) :=
    has_prefix_blank_self ws SYMBOL_PFX rest hws rfl
  rw [List.append_assoc]
  simp only [parse_line, e0, e1, e2, e3, e4, e5, e6, e7, e8, e9, e10]
  by_cases hin : st.in_symbols = true <;> simp [hin]

/-! ## Facts about the number and name readers -/

theorem hexRun_append_stop (ds t : List Char) (c : Char) (hds : allHex ds)
    (hc : hexDigit c = none) :
    ∀ acc : Nat, hexRun acc (ds ++ c :: t) = hexRun acc ds := by
  induction ds with
  | nil => intro acc; simp [hexRun, hc]
  | cons d ds ih =>
    intro acc
    have hd : (hexDigit d).isSome = true := hds d (List.mem_cons_self d ds)
    have hds' : allHex ds := fun e he => hds e (List.mem_cons_of_mem d he)
    obtain ⟨v, hv⟩ := Option.isSome_iff_exists.1 hd
    simp only [List.cons_append, hexRun, hv]
    exact ih hds' _

theorem hexDigit_not_special (c : Char) (h : (hexDigit c).isSome = true) :
    isspace c = false ∧ c ≠ '-' ∧ c ≠ '+' ∧ c ≠ 'x' ∧ c ≠ 'X' := by
  refine ⟨?_, ?_, ?_, ?_, ?_⟩
  · cases hs : isspace c with
    | false => rfl
    | true =>
      exfalso
      simp only [isspace, Bool.or_eq_true, decide_eq_true_eq] at hs
      rcases hs with ((((rfl | rfl) | rfl) | rfl) | rfl) | rfl <;> revert h <;> decide
  all_goals (rintro rfl; revert h; decide)

/-- On hexadecimal digits closed by a double quote, `strtou` reads the digits
and nothing else; the value is that of the digits, or the largest value of
the type when it does not fit. -/
theorem strtou_hex_quote (w : Nat) (ds t : List Char) (hds : allHex ds) :
    strtou w (ds ++ '"' :: t) = strtou w ds ∧
      strtou w ds = if 2 ^ w ≤ hexValue ds then 2 ^ w - 1 else hexValue ds := by
  have hq : hexDigit '"' = none := by decide
  cases ds with
  | nil =>
    constructor
    · cases t with
      | nil => simp [strtou, skip_space, isspace, take_sign, take_0x, hexRun, hq]
      | cons e t =>
        have h1 : ¬ ('"' = '0' ∧ (e = 'x' ∨ e = 'X')) := by
          rintro ⟨h, -⟩; revert h; decide
        simp [strtou, skip_space, isspace, take_sign, take_0x, hexRun, hq, h1]
    · simp [strtou, skip_space, take_sign, take_0x, hexValue, hexRun]
  | cons d ds =>
    have hd := hexDigit_not_special d (hds d (List.mem_cons_self d ds))
    have hds' : allHex ds := fun e he => hds e (List.mem_cons_of_mem d he)
    have hrun := hexRun_append_stop (d :: ds) t '"' hds hq 0
    have e1 : ∀ u, skip_space (d :: u) = d :: u := by
      intro u; simp [skip_space, hd.1]
    have e2 : ∀ u, take_sign (d :: u) = (false, d :: u) := by
      intro u; simp [take_sign, hd.2.1, hd.2.2.1]
    have e3 : take_0x (d :: ds ++ '"' :: t) = d :: ds ++ '"' :: t := by
      cases ds with
      | nil =>
        have : ¬ (d = '0' ∧ ('"' = 'x' ∨ '"' = 'X')) := by
          rintro ⟨-, h | h⟩ <;> revert h <;> decide
        simp [take_0x, this]
      | cons e ds =>
        have he := hexDigit_not_special e (hds' e (List.mem_cons_self e ds))
        simp [take_0x, he.2.2.2.1, he.2.2.2.2]
    have e4 : take_0x (d :: ds) = d :: ds := by
      cases ds with
      | nil => simp [take_0x]
      | cons e ds =>
        have he := hexDigit_not_special e (hds' e (List.mem_cons_self e ds))
        simp [take_0x, he.2.2.2.1, he.2.2.2.2]
    have hA : strtou w (d :: ds ++ '"' :: t) =
        if 2 ^ w ≤ hexValue (d :: ds) then 2 ^ w - 1 else hexValue (d :: ds) := by
      simp only [strtou, List.cons_append, e1, e2]
      rw [show d :: (ds ++ '"' :: t) = d :: ds ++ '"' :: t from rfl, e3, hrun]
      simp [hexValue]
    have hB : strtou w (d :: ds) =
        if 2 ^ w ≤ hexValue (d :: ds) then 2 ^ w - 1 else hexValue (d :: ds) := by
      simp only [strtou, e1, e2, e4]
      simp [hexValue]
    exact ⟨hA.trans hB.symm, hB⟩

theorem read_name_append (n t : List Char) (hn : '"' ∉ n)
    (ht : t = [] ∨ t.head? = some '"') : read_name (n ++ t) = n := by
  induction n with
  | nil =>
    rcases ht with rfl | ht
    · rfl
    · cases t with
      | nil => rfl
      | cons c t =>
        simp only [List.head?_cons, Option.some.injEq] at ht
        subst ht
        simp [read_name]
  | cons c n ih =>
    have hc : c ≠ '"' := fun h => hn (h ▸ List.mem_cons_self c n)
    have hn' : '"' ∉ n := fun h => hn (List.mem_cons_of_mem c h)
    simp [read_name, hc, ih hn']

theorem after_name_append (n t : List Char) (hn : '"' ∉ n)
    (ht : t = [] ∨ t.head? = some '"') : after_name (n ++ t) = t := by
  induction n with
  | nil =>
    rcases ht with rfl | ht
    · rfl
    · cases t with
      | nil => rfl
      | cons c t =>
        simp only [List.head?_cons, Option.some.injEq] at ht
        subst ht
        simp [after_name]
  | cons c n ih =>
    have hc : c ≠ '"' := fun h => hn (h ▸ List.mem_cons_self c n)
    have hn' : '"' ∉ n := fun h => hn (List.mem_cons_of_mem c h)
    simp [after_name, hc, ih hn']

theorem after_name_suffix (s : List Char) : after_name s <:+ s := by
  induction s with
  | nil => exact List.suffix_refl _
  | cons c s ih =>
    unfold after_name
    split_ifs
    · exact List.suffix_refl _
    · exact ih.trans (List.suffix_cons c s)

/-! ## Frame facts about the rules -/

theorem function_rule_frame (s : List Char) (st : PState) :
    (function_rule s st).module_offset = st.module_offset ∧
      (function_rule s st).in_functions = st.in_functions ∧
      (function_rule s st).in_data = st.in_data ∧
      (function_rule s st).in_symbols = st.in_symbols := by
  unfold function_rule
  rcases skip_to s NAME_Q_LIT with ⟨r, _ | _⟩ <;> simp

theorem address_range_rule_frame (s : List Char) (st : PState) :
    (address_range_rule s st).module_offset = st.module_offset ∧
      (address_range_rule s st).in_functions = st.in_functions ∧
      (address_range_rule s st).in_data = st.in_data ∧
      (address_range_rule s st).in_symbols = st.in_symbols := by
  unfold address_range_rule
  rcases skip_to s END_LIT with ⟨r, _ | _⟩
  · simp
  · simp only
    cases st.symbols.find (sub64 (strtoull16 s) st.module_offset) <;> simp

theorem defined_data_rule_frame (s : List Char) (st : PState) :
    (defined_data_rule s st).module_offset = st.module_offset ∧
      (defined_data_rule s st).in_functions = st.in_functions ∧
      (defined_data_rule s st).in_data = st.in_data ∧
      (defined_data_rule s st).in_symbols = st.in_symbols := by
  unfold defined_data_rule
  rcases skip_to s SIZE_LIT with ⟨r, _ | _⟩ <;> simp

theorem symbol_rule_frame (s : List Char) (st : PState) :
    (symbol_rule s st).module_offset = st.module_offset ∧
      (symbol_rule s st).in_functions = st.in_functions ∧
      (symbol_rule s st).in_data = st.in_data ∧
      (symbol_rule s st).in_symbols = st.in_symbols := by
  unfold symbol_rule
  dsimp only
  cases st.symbols.find (sub64 (strtoull16 s) st.module_offset) with
  | none => simp
  | some e =>
    dsimp only
    rcases skip_to s NAME_LIT with ⟨r1, _ | _⟩
    · simp
    · dsimp only
      rcases skip_to (after_name r1) NAMESPACE_LIT with ⟨r2, _ | _⟩
      · simp
      · dsimp only
        rcases skip_to r2 TYPE_LIT with ⟨r3, _ | _⟩
        · simp
        · dsimp only
          rcases skip_to r3 PRIMARY_LIT with ⟨r4, _ | _⟩ <;> simp

/-- A line read while the base is set leaves the base as it is. -/
theorem parse_line_module_offset (line : List Char) (st : PState)
    (h : st.module_offset ≠ 0) :
    (parse_line line st).module_offset = st.module_offset := by
  unfold parse_line
  simp only [h, false_and, if_false, apply_ite PState.module_offset,
    (function_rule_frame _ st).1, (address_range_rule_frame _ st).1,
    (defined_data_rule_frame _ st).1, (symbol_rule_frame _ st).1, ite_self]

theorem register_symbols_eq (imagebase : Nat) (t : Table) :
    register_symbols imagebase t = (t.filter named).map (request_of imagebase) := by
  induction t with
  | nil => rfl
  | cons e t ih =>
    obtain ⟨k, v⟩ := e
    by_cases hv : v.name = []
    · simp [register_symbols, named, hv, ih]
    · simp [register_symbols, named, hv, ih, request_of]

/-- Case analysis on what one line can do: nothing, set the base, set one
flag, or run one of the four rules. -/
theorem parse_line_cases (P : PState → Prop) (line : List Char) (st : PState)
    (h0 : P st) (h1 : ∀ v, P { st with module_offset := v })
    (h2 : ∀ b, P { st with in_functions := b }) (h3 : ∀ b, P { st with in_data := b })
    (h4 : ∀ b, P { st with in_symbols := b })
    (h5 : ∀ s, P (function_rule s st)) (h6 : ∀ s, P (address_range_rule s st))
    (h7 : ∀ s, P (defined_data_rule s st)) (h8 : ∀ s, P (symbol_rule s st)) :
    P (parse_line line st) := by
  unfold parse_line
  generalize has_prefix line PROGRAM_PFX = a0
  generalize has_prefix line FUNCTIONS_PFX = a1
  generalize has_prefix line DATA_PFX = a2
  generalize has_prefix line SYMBOL_TABLE_PFX = a3
  generalize has_prefix line FUNCTIONS_END = a4
  generalize has_prefix line DATA_END = a5
  generalize has_prefix line SYMBOL_TABLE_END = a6
  generalize has_prefix line FUNCTION_PFX = a7
  generalize has_prefix line ADDRESS_RANGE_PFX = a8
  generalize has_prefix line DEFINED_DATA_PFX = a9
  generalize has_prefix line SYMBOL_PFX = a10
  by_cases c0 : st.module_offset = 0 ∧ a0.2 = true
  · rw [if_pos c0]
    rcases skip_to a0.1 IMAGE_BASE_LIT with ⟨r, _ | _⟩
    · exact h0
    · exact h1 _
  rw [if_neg c0]
  by_cases c1 : a1.2 = true
  · rw [if_pos c1]; exact h2 _
  rw [if_neg c1]
  by_cases c2 : a2.2 = true
  · rw [if_pos c2]; exact h3 _
  rw [if_neg c2]
  by_cases c3 : a3.2 = true
  · rw [if_pos c3]; exact h4 _
  rw [if_neg c3]
  by_cases c4 : st.in_functions = true ∧ a4.2 = true
  · rw [if_pos c4]; exact h2 _
  rw [if_neg c4]
  by_cases c5 : st.in_data = true ∧ a5.2 = true
  · rw [if_pos c5]; exact h3 _
  rw [if_neg c5]
  by_cases c6 : st.in_symbols = true ∧ a6.2 = true
  · rw [if_pos c6]; exact h4 _
  rw [if_neg c6]
  by_cases c7 : st.in_functions = true ∧ a7.2 = true
  · rw [if_pos c7]; exact h5 _
  rw [if_neg c7]
  by_cases c8 : st.in_functions = true ∧ a8.2 = true
  · rw [if_pos c8]; exact h6 _
  rw [if_neg c8]
  by_cases c9 : st.in_data = true ∧ a9.2 = true
  · rw [if_pos c9]; exact h7 _
  rw [if_neg c9]
  by_cases c10 : st.in_symbols = true ∧ a10.2 = true
  · rw [if_pos c10]; exact h8 _
  rw [if_neg c10]
  exact h0

/-- The table of `parse_line` stays in ascending key order. -/
theorem parse_line_ordered (line : List Char) (st : PState)
    (h : Table.Ordered st.symbols) : Table.Ordered (parse_line line st).symbols := by
  refine parse_line_cases (fun s => Table.Ordered s.symbols) line st h (fun _ => h)
    (fun _ => h) (fun _ => h) (fun _ => h) ?_ ?_ ?_ ?_
  · intro s
    unfold function_rule
    rcases skip_to s NAME_Q_LIT with ⟨r, _ | _⟩
    · exact h
    · exact Table.insert_ordered _ _ _ h
  · intro s
    unfold address_range_rule
    rcases skip_to s END_LIT with ⟨r, _ | _⟩
    · exact h
    · dsimp only
      cases st.symbols.find (sub64 (strtoull16 s) st.module_offset) with
      | none => exact h
      | some e =>
        dsimp only [Table.Ordered]
        rw [Table.keys_setSize]
        exact h
  · intro s
    unfold defined_data_rule
    rcases skip_to s SIZE_LIT with ⟨r, _ | _⟩
    · exact h
    · exact Table.insert_ordered _ _ _ h
  · intro s
    unfold symbol_rule
    dsimp only
    cases st.symbols.find (sub64 (strtoull16 s) st.module_offset) with
    | none => exact h
    | some e =>
      dsimp only
      rcases skip_to s NAME_LIT with ⟨r1, _ | _⟩
      · exact h
      · dsimp only
        rcases skip_to (after_name r1) NAMESPACE_LIT with ⟨r2, _ | _⟩
        · exact h
        · dsimp only
          rcases skip_to r2 TYPE_LIT with ⟨r3, _ | _⟩
          · exact h
          · dsimp only
            rcases skip_to r3 PRIMARY_LIT with ⟨r4, _ | _⟩
            · exact h
            · dsimp only [Table.Ordered]
              rw [Table.keys_setName]
              exact h

/-- The table of the parse loop stays in ascending key order. -/
theorem parse_loop_ordered (intr : Nat → Bool) (lines : List (List Char)) :
    ∀ (i : Nat) (st : PState), Table.Ordered st.symbols →
      Table.Ordered (parse_loop intr i lines st).symbols := by
  induction lines with
  | nil => intro i st h; exact h
  | cons l ls ih =>
    intro i st h
    unfold parse_loop
    split_ifs
    · exact h
    · exact ih (i + 1) _ (parse_line_ordered l st h)

/-- The table that a run of `addsym` hands to the registration loop is in
ascending key order. -/
theorem addsym_ordered (statics : Statics) (imagebase : Nat) (intr : Nat → Bool)
    (lines : List (List Char)) :
    Table.Ordered (addsym statics imagebase intr lines).symbols :=
  parse_loop_ordered intr lines 0 _ (by simp [Table.Ordered, Table.keys])

/-- The three markers of the name rule are found one after the other exactly
when `symbol_rule` writes; here the reading of the chain after the name. -/
theorem markers_found (tail x1 x2 x3 x4 : List Char)
    (h : tail = x1 ++ NAMESPACE_LIT ++ x2 ++ TYPE_LIT ++ x3 ++ PRIMARY_LIT ++ x4) :
    ∃ r2 r3 r4, skip_to tail NAMESPACE_LIT = (r2, true) ∧
      skip_to r2 TYPE_LIT = (r3, true) ∧ skip_to r3 PRIMARY_LIT = (r4, true) := by
  obtain ⟨r2, h2, s2⟩ := skip_to_finds ' ' "NAMESPACE=\"\"".toList (by decide) x1
    (x2 ++ TYPE_LIT ++ x3 ++ PRIMARY_LIT ++ x4)
  obtain ⟨y2, hy2⟩ := s2
  obtain ⟨r3, h3, s3⟩ := skip_to_finds ' ' "TYPE=\"global\"".toList (by decide) (y2 ++ x2)
    (x3 ++ PRIMARY_LIT ++ x4)
  obtain ⟨y3, hy3⟩ := s3
  obtain ⟨r4, h4, -⟩ := skip_to_finds ' ' "PRIMARY=\"y\"".toList (by decide) (y3 ++ x3) x4
  refine ⟨r2, r3, r4, ?_, ?_, ?_⟩
  · rw [h, ← h2]
    simp only [List.append_assoc]
    rfl
  · rw [← hy2, ← h3]
    simp only [List.append_assoc]
    rfl
  · rw [← hy3, ← h4]
    simp only [List.append_assoc]
    rfl

/-- When one of the three markers is missing from the text, the chain of the
three `skip_to` calls fails. -/
theorem markers_missing (tail : List Char)
    (h : ¬ NAMESPACE_LIT <:+: tail ∨ ¬ TYPE_LIT <:+: tail ∨ ¬ PRIMARY_LIT <:+: tail) :
    ∀ r2 r3 r4, skip_to tail NAMESPACE_LIT = (r2, true) →
      skip_to r2 TYPE_LIT = (r3, true) → skip_to r3 PRIMARY_LIT = (r4, true) → False := by
  intro r2 r3 r4 h2 h3 h4
  obtain ⟨i2, s2⟩ := skip_to_true_occurs _ _ _ h2
  obtain ⟨i3, s3⟩ := skip_to_true_occurs _ _ _ h3
  obtain ⟨i4, -⟩ := skip_to_true_occurs _ _ _ h4
  rcases h with h | h | h
  · exact h i2
  · exact h (i3.trans s2.isInfix)
  · exact h (i4.trans (s3.trans s2).isInfix)

/-! ## The overwrite rule of the data section -/

/-- The overwrite rule where `skip_to` finds the size marker: in the data
section, a line that after spaces and tabs reads
`<DEFINED_DATA ADDRESS="A` (`A` hexadecimal digits), a closing double quote,
and the marker `" SIZE="0x` followed by the digits `S` and a double quote,
where the marker stands at its first occurrence and is not directly preceded
by the text `" SIZE=`, replaces the entry stored under the rebased address
`k`, of whatever kind and name and so a Function entry too, by
`{Data, empty name, k, S}`: kind, name and size are all new, every other key
is as before, and in an ordered table the keys are the same. -/
theorem data_rule_overwrites (st : PState) (ws A mid S tail : List Char)
    (e : SymbolDef) (hws : Blank ws) (hin : st.in_data = true) (hA : allHex A)
    (hmid : mid = [] ∨ mid.head? = some '"')
    (hleft : ¬ SIZE_LIT <:+: A ++ mid ++ SIZE_LIT.dropLast)
    (hend : ¬ "\" SIZE=".toList <:+ A ++ mid)
    (hS : allHex S)
    (hfun : st.symbols.find (sub64 (strtoull16 A) st.module_offset) = some e) :
    (parse_line (ws ++ DEFINED_DATA_PFX ++ (A ++ mid ++ SIZE_LIT ++ (S ++ '"' :: tail))) st).symbols.find
          (sub64 (strtoull16 A) st.module_offset) =
        some ⟨SymbolType.Data, [], sub64 (strtoull16 A) st.module_offset, strtoul16 S⟩ ∧
      (∀ j, j ≠ sub64 (strtoull16 A) st.module_offset →
        (parse_line (ws ++ DEFINED_DATA_PFX ++ (A ++ mid ++ SIZE_LIT ++ (S ++ '"' :: tail))) st).symbols.find j =
          st.symbols.find j) ∧
      (st.symbols.Ordered →
        (parse_line (ws ++ DEFINED_DATA_PFX ++ (A ++ mid ++ SIZE_LIT ++ (S ++ '"' :: tail))) st).symbols.keys =
          st.symbols.keys) ∧
      (hexValue A < 2 ^ 64 → strtoull16 A = hexValue A) ∧
      (hexValue S < 2 ^ 32 → strtoul16 S = hexValue S) := by
  have hskip : skip_to (A ++ mid ++ SIZE_LIT ++ (S ++ '"' :: tail)) SIZE_LIT =
      (S ++ '"' :: tail, true) :=
    skip_to_exact '"' " SIZE=\"0x".toList (A ++ mid) (S ++ '"' :: tail) hleft
      (noRiskyEnd_size _ hend)
  have hnum : strtoull16 (A ++ mid ++ SIZE_LIT ++ (S ++ '"' :: tail)) = strtoull16 A := by
    rcases hmid with rfl | hm
    · have e1 : A ++ [] ++ SIZE_LIT ++ (S ++ '"' :: tail) =
          A ++ '"' :: (" SIZE=\"0x".toList ++ (S ++ '"' :: tail)) := by
        rw [List.append_nil, List.append_assoc]; rfl
      rw [e1]
      exact (strtou_hex_quote 64 A _ hA).1
    · cases mid with
      | nil => simp at hm
      | cons c mid' =>
        simp only [List.head?_cons, Option.some.injEq] at hm
        subst hm
        have := (strtou_hex_quote 64 A (mid' ++ SIZE_LIT ++ (S ++ '"' :: tail)) hA).1
        simpa [strtoull16, List.append_assoc] using this
  have hsize : strtoul16 (S ++ '"' :: tail) = strtoul16 S :=
    (strtou_hex_quote 32 S tail hS).1
  have hmain : parse_line (ws ++ DEFINED_DATA_PFX ++ (A ++ mid ++ SIZE_LIT ++ (S ++ '"' :: tail))) st =
      { st with
        symbols :=
          Table.insert (sub64 (strtoull16 A) st.module_offset)
            ⟨SymbolType.Data, [], sub64 (strtoull16 A) st.module_offset, strtoul16 S⟩
            st.symbols } := by
    rw [parse_line_defined_data ws _ st hws, if_pos hin]
    unfold defined_data_rule
    simp only [hskip, hnum, hsize]
  refine ⟨?_, ?_, ?_, ?_, ?_⟩
  · rw [hmain]; exact Table.find_insert_self _ _ _
  · intro j hj
    rw [hmain]; exact Table.find_insert_ne _ _ _ _ hj
  · intro hord
    rw [hmain]; exact Table.keys_insert_of_find _ _ _ e hord hfun
  · intro hfit
    have := (strtou_hex_quote 64 A [] hA).2
    rw [if_neg (not_le.2 hfit)] at this
    exact this
  · intro hfit
    have := (strtou_hex_quote 32 S [] hS).2
    rw [if_neg (not_le.2 hfit)] at this
    exact this

/-- The overwrite scenario: the example up to the opening of the data section,
then the data line of the example placed at the address of `gets_s`. -/
theorem data_rule_overwrites_example :
    (Blank ([] : List Char) ∧ ex_state_in_data.in_data = true ∧
      allHex "00401005".toList ∧
      ("\" DATATYPE=\"string\" DATATYPE_NAMESPACE=\"/".toList = [] ∨
        "\" DATATYPE=\"string\" DATATYPE_NAMESPACE=\"/".toList.head? = some '"') ∧
      ¬ SIZE_LIT <:+: "00401005".toList ++
          "\" DATATYPE=\"string\" DATATYPE_NAMESPACE=\"/".toList ++ SIZE_LIT.dropLast ∧
      ¬ "\" SIZE=".toList <:+ "00401005".toList ++
          "\" DATATYPE=\"string\" DATATYPE_NAMESPACE=\"/".toList ∧
      allHex "18".toList ∧
      ex_state_in_data.symbols.find
          (sub64 (strtoull16 "00401005".toList) ex_state_in_data.module_offset) =
        some ⟨SymbolType.Function, "gets_s".toList, 0x1005, 4⟩) ∧
    (parse_line ([] ++ DEFINED_DATA_PFX ++
        ("00401005".toList ++ "\" DATATYPE=\"string\" DATATYPE_NAMESPACE=\"/".toList ++
          SIZE_LIT ++ ("18".toList ++ '"' :: " />".toList)))
        ex_state_in_data).symbols.find
          (sub64 (strtoull16 "00401005".toList) ex_state_in_data.module_offset) =
      some ⟨SymbolType.Data, [], sub64 (strtoull16 "00401005".toList)
        ex_state_in_data.module_offset, strtoul16 "18".toList⟩ ∧
    sub64 (strtoull16 "00401005".toList) ex_state_in_data.module_offset = 0x1005 ∧
    strtoul16 "18".toList = 0x18 :=
  ⟨⟨by decide, by decide, by decide, Or.inr rfl, by decide, by decide, by decide,
      by decide⟩,
    (data_rule_overwrites ex_state_in_data [] "00401005".toList
      "\" DATATYPE=\"string\" DATATYPE_NAMESPACE=\"/".toList "18".toList " />".toList
      ⟨SymbolType.Function, "gets_s".toList, 0x1005, 4⟩
      (by decide) (by decide) (by decide) (Or.inr rfl) (by decide) (by decide)
      (by decide) (by decide)).1,
    by decide, by decide⟩

/-! ## Further facts about the line scanner -/

theorem skip_ws_eq_dropWhile (t : List Char) : skip_ws t = leading_blanks_removed t := by
  induction t with
  | nil => rfl
  | cons c t ih =>
    by_cases hc : c = ' ' ∨ c = '\t'
    · have hb : is_blank c = true := by simpa [is_blank] using hc
      simp only [skip_ws, hc, if_true, leading_blanks_removed, List.dropWhile_cons, hb]
      exact ih
    · have hb : is_blank c = false := by simpa [is_blank] using hc
      simp [skip_ws, hc, leading_blanks_removed, List.dropWhile_cons, hb]

/-- The matching loop succeeds exactly on the texts that start with the
literal, and then leaves the text after it. -/
theorem match_lit_eq_some (l : List Char) :
    ∀ s r : List Char, match_lit s l = some r ↔ s = l ++ r := by
  induction l with
  | nil => intro s r; cases s <;> simp [match_lit, eq_comm]
  | cons q l ih =>
    intro s r
    cases s with
    | nil => simp [match_lit]
    | cons c s =>
      by_cases h : c = q
      · subst h; simp [match_lit, ih]
      · simp [match_lit, h]

/-- A leftmost occurrence starts no later than any other occurrence. -/
theorem leftmost_length_le (L pre post pre1 post1 : List Char) (hne : L ≠ [])
    (h : ¬ L <:+: pre ++ L.dropLast) (e : pre ++ L ++ post = pre1 ++ L ++ post1) :
    pre.length ≤ pre1.length := by
  by_contra hlt
  apply h
  have h1 : pre1 ++ L <+: pre ++ L ++ post := by
    rw [e]; exact List.prefix_append _ _
  have h2 : pre ++ L.dropLast <+: pre ++ L ++ post := by
    refine ⟨[L.getLast hne] ++ post, ?_⟩
    conv_rhs => rw [← List.dropLast_append_getLast hne]
    simp
  have hL : L.length ≠ 0 := fun h0 => hne (List.length_eq_zero.1 h0)
  have hlen : (pre1 ++ L).length ≤ (pre ++ L.dropLast).length := by
    simp only [List.length_append, List.length_dropLast]
    omega
  have h3 : pre1 ++ L <+: pre ++ L.dropLast := List.prefix_of_prefix_length_le h1 h2 hlen
  exact (List.suffix_append pre1 L).isInfix.trans h3.isInfix

/-! ## The section tags -/

/-- A line that starts with `<FUNCTIONS` sets the functions flag from the next character. -/
theorem parse_line_functions_tag (ws rest : List Char) (st : PState) (hws : Blank ws) :
    parse_line (ws ++ FUNCTIONS_PFX ++ rest) st = { st with in_functions := not_slash rest } := by
  have e0 : has_prefix (ws ++ (FUNCTIONS_PFX ++ rest)) PROGRAM_PFX = (_, false) :=
    has_prefix_blank ws (FUNCTIONS_PFX ++ rest) PROGRAM_PFX hws
  have e1 : has_prefix (ws ++ (FUNCTIONS_PFX ++ rest)) FUNCTIONS_PFX = (rest, true) :=
    has_prefix_blank_self ws FUNCTIONS_PFX rest hws rfl
  rw [List.append_assoc]
  simp only [parse_line, e0, e1]
  simp

/-- A line that starts with `<DATA` sets the data flag from the next character. -/
theorem parse_line_data_tag (ws rest : List Char) (st : PState) (hws : Blank ws) :
    parse_line (ws ++ DATA_PFX ++ rest) st = { st with in_data := not_slash rest } := by
  have e0 : has_prefix (ws ++ (DATA_PFX ++ rest)) PROGRAM_PFX = (_, false) :=
    has_prefix_blank ws (DATA_PFX ++ rest) PROGRAM_PFX hws
  have e1 : has_prefix (ws ++ (DATA_PFX ++ rest)) FUNCTIONS_PFX = (_, false) :=
    has_prefix_blank ws (DATA_PFX ++ rest) FUNCTIONS_PFX hws
  have e2 : has_prefix (ws ++ (DATA_PFX ++ rest)) DATA_PFX = (rest, true) :=
    has_prefix_blank_self ws DATA_PFX rest hws rfl
  rw [List.append_assoc]
  simp only [parse_line, e0, e1, e2]
  simp

/-- A line that starts with `<SYMBOL_TABLE` sets the symbol table flag from the next character. -/
theorem parse_line_symbol_table_tag (ws rest : List Char) (st : PState) (hws : Blank ws) :
    parse_line (ws ++ SYMBOL_TABLE_PFX ++ rest) st = { st with in_symbols := not_slash rest } := by
  have e0 : has_prefix (ws ++ (SYMBOL_TABLE_PFX ++ rest)) PROGRAM_PFX = (_, false) :=
    has_prefix_blank ws (SYMBOL_TABLE_PFX ++ rest) PROGRAM_PFX hws
  have e1 : has_prefix (ws ++ (SYMBOL_TABLE_PFX ++ rest)) FUNCTIONS_PFX = (_, false) :=
    has_prefix_blank ws (SYMBOL_TABLE_PFX ++ rest) FUNCTIONS_PFX hws
  have e2 : has_prefix (ws ++ (SYMBOL_TABLE_PFX ++ rest)) DATA_PFX = (_, false) :=
    has_prefix_blank ws (SYMBOL_TABLE_PFX ++ rest) DATA_PFX hws
  have e3 : has_prefix (ws ++ (SYMBOL_TABLE_PFX ++ rest)) SYMBOL_TABLE_PFX = (rest, true) :=
    has_prefix_blank_self ws SYMBOL_TABLE_PFX rest hws rfl
  rw [List.append_assoc]
  simp only [parse_line, e0, e1, e2, e3]
  simp

/-- A line that starts with `</FUNCTIONS>` leaves the functions flag false. -/
theorem parse_line_functions_end (ws rest : List Char) (st : PState) (hws : Blank ws) :
    parse_line (ws ++ FUNCTIONS_END ++ rest) st = { st with in_functions := false } := by
  have e0 : has_prefix (ws ++ (FUNCTIONS_END ++ rest)) PROGRAM_PFX = (_, false) :=
    has_prefix_blank ws (FUNCTIONS_END ++ rest) PROGRAM_PFX hws
  have e1 : has_prefix (ws ++ (FUNCTIONS_END ++ rest)) FUNCTIONS_PFX = (_, false) :=
    has_prefix_blank ws (FUNCTIONS_END ++ rest) FUNCTIONS_PFX hws
  have e2 : has_prefix (ws ++ (FUNCTIONS_END ++ rest)) DATA_PFX = (_, false) :=
    has_prefix_blank ws (FUNCTIONS_END ++ rest) DATA_PFX hws
  have e3 : has_prefix (ws ++ (FUNCTIONS_END ++ rest)) SYMBOL_TABLE_PFX = (_, false) :=
    has_prefix_blank ws (FUNCTIONS_END ++ rest) SYMBOL_TABLE_PFX hws
  have e4 : has_prefix (ws ++ (FUNCTIONS_END ++ rest)) FUNCTIONS_END = (rest, true) :=
    has_prefix_blank_self ws FUNCTIONS_END rest hws rfl
  have e5 : has_prefix (ws ++ (FUNCTIONS_END ++ rest)) DATA_END = (_, false) :=
    has_prefix_blank ws (FUNCTIONS_END ++ rest) DATA_END hws
  have e6 : has_prefix (ws ++ (FUNCTIONS_END ++ rest)) SYMBOL_TABLE_END = (_, false) :=
    has_prefix_blank ws (FUNCTIONS_END ++ rest) SYMBOL_TABLE_END hws
  have e7 : has_prefix (ws ++ (FUNCTIONS_END ++ rest)) FUNCTION_PFX = (_, false) :=
    has_prefix_blank ws (FUNCTIONS_END ++ rest) FUNCTION_PFX hws
  have e8 : has_prefix (ws ++ (FUNCTIONS_END ++ rest)) ADDRESS_RANGE_PFX = (_, false) :=
    has_prefix_blank ws (FUNCTIONS_END ++ rest) ADDRESS_RANGE_PFX hws
  have e9 : has_prefix (ws ++ (FUNCTIONS_END ++ rest)) DEFINED_DATA_PFX = (_, false) :=
    has_prefix_blank ws (FUNCTIONS_END ++ rest) DEFINED_DATA_PFX hws
  have e10 : has_prefix (ws ++ (FUNCTIONS_END ++ rest)) SYMBOL_PFX = (_, false) :=
    has_prefix_blank ws (FUNCTIONS_END ++ rest) SYMBOL_PFX hws
  rw [List.append_assoc]
  simp only [parse_line, e0, e1, e2, e3, e4, e5, e6, e7, e8, e9, e10]
  obtain ⟨f1, f2, f3, mo, t⟩ := st
  cases f1 <;> cases f2 <;> cases f3 <;> simp

/-- A line that starts with `</DATA>` leaves the data flag false. -/
theorem parse_line_data_end (ws rest : List Char) (st : PState) (hws : Blank ws) :
    parse_line (ws ++ DATA_END ++ rest) st = { st with in_data := false } := by
  have e0 : has_prefix (ws ++ (DATA_END ++ rest)) PROGRAM_PFX = (_, false) :=
    has_prefix_blank ws (DATA_END ++ rest) PROGRAM_PFX hws
  have e1 : has_prefix (ws ++ (DATA_END ++ rest)) FUNCTIONS_PFX = (_, false) :=
    has_prefix_blank ws (DATA_END ++ rest) FUNCTIONS_PFX hws
  have e2 : has_prefix (ws ++ (DATA_END ++ rest)) DATA_PFX = (_, false) :=
    has_prefix_blank ws (DATA_END ++ rest) DATA_PFX hws
  have e3 : has_prefix (ws ++ (DATA_END ++ rest)) SYMBOL_TABLE_PFX = (_, false) :=
    has_prefix_blank ws (DATA_END ++ rest) SYMBOL_TABLE_PFX hws
  have e4 : has_prefix (ws ++ (DATA_END ++ rest)) FUNCTIONS_END = (_, false) :=
    has_prefix_blank ws (DATA_END ++ rest) FUNCTIONS_END hws
  have e5 : has_prefix (ws ++ (DATA_END ++ rest)) DATA_END = (rest, true) :=
    has_prefix_blank_self ws DATA_END rest hws rfl
  have e6 : has_prefix (ws ++ (DATA_END ++ rest)) SYMBOL_TABLE_END = (_, false) :=
    has_prefix_blank ws (DATA_END ++ rest) SYMBOL_TABLE_END hws
  have e7 : has_prefix (ws ++ (DATA_END ++ rest)) FUNCTION_PFX = (_, false) :=
    has_prefix_blank ws (DATA_END ++ rest) FUNCTION_PFX hws
  have e8 : has_prefix (ws ++ (DATA_END ++ rest)) ADDRESS_RANGE_PFX = (_, false) :=
    has_prefix_blank ws (DATA_END ++ rest) ADDRESS_RANGE_PFX hws
  have e9 : has_prefix (ws ++ (DATA_END ++ rest)) DEFINED_DATA_PFX = (_, false) :=
    has_prefix_blank ws (DATA_END ++ rest) DEFINED_DATA_PFX hws
  have e10 : has_prefix (ws ++ (DATA_END ++ rest)) SYMBOL_PFX = (_, false) :=
    has_prefix_blank ws (DATA_END ++ rest) SYMBOL_PFX hws
  rw [List.append_assoc]
  simp only [parse_line, e0, e1, e2, e3, e4, e5, e6, e7, e8, e9, e10]
  obtain ⟨f1, f2, f3, mo, t⟩ := st
  cases f1 <;> cases f2 <;> cases f3 <;> simp

/-- A line that starts with `</SYMBOL_TABLE>` leaves the symbol table flag false. -/
theorem parse_line_symbol_table_end (ws rest : List Char) (st : PState) (hws : Blank ws) :
    parse_line (ws ++ SYMBOL_TABLE_END ++ rest) st = { st with in_symbols := false } := by
  have e0 : has_prefix (ws ++ (SYMBOL_TABLE_END ++ rest)) PROGRAM_PFX = (_, false) :=
    has_prefix_blank ws (SYMBOL_TABLE_END ++ rest) PROGRAM_PFX hws
  have e1 : has_prefix (ws ++ (SYMBOL_TABLE_END ++ rest)) FUNCTIONS_PFX = (_, false) :=
    has_prefix_blank ws (SYMBOL_TABLE_END ++ rest) FUNCTIONS_PFX hws
  have e2 : has_prefix (ws ++ (SYMBOL_TABLE_END ++ rest)) DATA_PFX = (_, false) :=
    has_prefix_blank ws (SYMBOL_TABLE_END ++ rest) DATA_PFX hws
  have e3 : has_prefix (ws ++ (SYMBOL_TABLE_END ++ rest)) SYMBOL_TABLE_PFX = (_, false) :=
    has_prefix_blank ws (SYMBOL_TABLE_END ++ rest) SYMBOL_TABLE_PFX hws
  have e4 : has_prefix (ws ++ (SYMBOL_TABLE_END ++ rest)) FUNCTIONS_END = (_, false) :=
    has_prefix_blank ws (SYMBOL_TABLE_END ++ rest) FUNCTIONS_END hws
  have e5 : has_prefix (ws ++ (SYMBOL_TABLE_END ++ rest)) DATA_END = (_, false) :=
    has_prefix_blank ws (SYMBOL_TABLE_END ++ rest) DATA_END hws
  have e6 : has_prefix (ws ++ (SYMBOL_TABLE_END ++ rest)) SYMBOL_TABLE_END = (rest, true) :=
    has_prefix_blank_self ws SYMBOL_TABLE_END rest hws rfl
  have e7 : has_prefix (ws ++ (SYMBOL_TABLE_END ++ rest)) FUNCTION_PFX = (_, false) :=
    has_prefix_blank ws (SYMBOL_TABLE_END ++ rest) FUNCTION_PFX hws
  have e8 : has_prefix (ws ++ (SYMBOL_TABLE_END ++ rest)) ADDRESS_RANGE_PFX = (_, false) :=
    has_prefix_blank ws (SYMBOL_TABLE_END ++ rest) ADDRESS_RANGE_PFX hws
  have e9 : has_prefix (ws ++ (SYMBOL_TABLE_END ++ rest)) DEFINED_DATA_PFX = (_, false) :=
    has_prefix_blank ws (SYMBOL_TABLE_END ++ rest) DEFINED_DATA_PFX hws
  have e10 : has_prefix (ws ++ (SYMBOL_TABLE_END ++ rest)) SYMBOL_PFX = (_, false) :=
    has_prefix_blank ws (SYMBOL_TABLE_END ++ rest) SYMBOL_PFX hws
  rw [List.append_assoc]
  simp only [parse_line, e0, e1, e2, e3, e4, e5, e6, e7, e8, e9, e10]
  obtain ⟨f1, f2, f3, mo, t⟩ := st
  cases f1 <;> cases f2 <;> cases f3 <;> simp

/-- A literal whose first character is not in `H` and that occurs in
`H ++ s` occurs in `s`. -/
theorem occurs_after_of_head_not_mem (x : Char) (L' s : List Char) :
    ∀ H : List Char, x ∉ H → (x :: L') <:+: H ++ s → (x :: L') <:+: s := by
  intro H
  induction H with
  | nil => intro _ h; simpa using h
  | cons c H ih =>
    intro hx h
    have hc : x ≠ c := fun e => hx (e ▸ List.mem_cons_self x H)
    have hH : x ∉ H := fun e => hx (List.mem_cons_of_mem c e)
    rw [List.cons_append, List.infix_cons_iff] at h
    rcases h with h | h
    · exfalso
      obtain ⟨w, hw⟩ := h
      simp only [List.cons_append, List.cons.injEq] at hw
      exact hc hw.1
    · exact ih hH h

theorem not_slash_iff (s : List Char) : not_slash s = true ↔ s.head? ≠ some '/' := by
  cases s with
  | nil => simp [not_slash]
  | cons c s => simp [not_slash]

/-! ## Invariants of the table -/

theorem Table.mem_insert (k : Nat) (v : SymbolDef) (t : Table) (e : Nat × SymbolDef)
    (h : e ∈ Table.insert k v t) : e = (k, v) ∨ e ∈ t := by
  induction t with
  | nil => simpa [Table.insert] using h
  | cons x t ih =>
    obtain ⟨k1, v1⟩ := x
    unfold Table.insert at h
    split_ifs at h with h1 h2
    · simpa using h
    · rcases List.mem_cons.1 h with h | h
      · exact Or.inl h
      · exact Or.inr (List.mem_cons_of_mem _ h)
    · rcases List.mem_cons.1 h with h | h
      · exact Or.inr (h ▸ List.mem_cons_self _ _)
      · rcases ih h with h | h
        · exact Or.inl h
        · exact Or.inr (List.mem_cons_of_mem _ h)

theorem Table.mem_setSize (k sz : Nat) (t : Table) (e : Nat × SymbolDef)
    (h : e ∈ Table.setSize k sz t) : ∃ e0 ∈ t, e.1 = e0.1 ∧ e.2.offset = e0.2.offset := by
  induction t with
  | nil => simp [Table.setSize] at h
  | cons x t ih =>
    obtain ⟨k1, v1⟩ := x
    unfold Table.setSize at h
    split_ifs at h with h1
    · rcases List.mem_cons.1 h with h | h
      · exact ⟨(k1, v1), List.mem_cons_self _ _, by rw [h], by rw [h]⟩
      · exact ⟨e, List.mem_cons_of_mem _ h, rfl, rfl⟩
    · rcases List.mem_cons.1 h with h | h
      · exact ⟨(k1, v1), List.mem_cons_self _ _, by rw [h], by rw [h]⟩
      · obtain ⟨e0, he0, h3⟩ := ih h
        exact ⟨e0, List.mem_cons_of_mem _ he0, h3⟩

theorem Table.mem_setName (k : Nat) (nm : List Char) (t : Table) (e : Nat × SymbolDef)
    (h : e ∈ Table.setName k nm t) : ∃ e0 ∈ t, e.1 = e0.1 ∧ e.2.offset = e0.2.offset := by
  induction t with
  | nil => simp [Table.setName] at h
  | cons x t ih =>
    obtain ⟨k1, v1⟩ := x
    unfold Table.setName at h
    split_ifs at h with h1
    · rcases List.mem_cons.1 h with h | h
      · exact ⟨(k1, v1), List.mem_cons_self _ _, by rw [h], by rw [h]⟩
      · exact ⟨e, List.mem_cons_of_mem _ h, rfl, rfl⟩
    · rcases List.mem_cons.1 h with h | h
      · exact ⟨(k1, v1), List.mem_cons_self _ _, by rw [h], by rw [h]⟩
      · obtain ⟨e0, he0, h3⟩ := ih h
        exact ⟨e0, List.mem_cons_of_mem _ he0, h3⟩

theorem Table.keyed_insert (k : Nat) (v : SymbolDef) (t : Table)
    (h : Table.KeyedByOffset t) (hv : v.offset = k) :
    Table.KeyedByOffset (Table.insert k v t) := by
  intro e he
  rcases Table.mem_insert k v t e he with rfl | he
  · exact hv
  · exact h e he

theorem Table.keyed_setSize (k sz : Nat) (t : Table) (h : Table.KeyedByOffset t) :
    Table.KeyedByOffset (Table.setSize k sz t) := by
  intro e he
  obtain ⟨e0, he0, h1, h2⟩ := Table.mem_setSize k sz t e he
  rw [h1, h2]
  exact h e0 he0

theorem Table.keyed_setName (k : Nat) (nm : List Char) (t : Table)
    (h : Table.KeyedByOffset t) : Table.KeyedByOffset (Table.setName k nm t) := by
  intro e he
  obtain ⟨e0, he0, h1, h2⟩ := Table.mem_setName k nm t e he
  rw [h1, h2]
  exact h e0 he0

/-- What the function rule can do: nothing, or one assignment of an entry
whose `offset` is its key. -/
theorem function_rule_shape (s : List Char) (st : PState) :
    function_rule s st = st ∨
      ∃ k v, v.offset = k ∧
        function_rule s st = { st with symbols := Table.insert k v st.symbols } := by
  unfold function_rule
  rcases skip_to s NAME_Q_LIT with ⟨r, _ | _⟩
  · exact Or.inl rfl
  · exact Or.inr ⟨sub64 (strtoull16 s) st.module_offset,
      ⟨SymbolType.Function, read_name r, sub64 (strtoull16 s) st.module_offset, 4⟩,
      rfl, rfl⟩

/-- What the data rule can do: nothing, or one assignment of an entry whose
`offset` is its key. -/
theorem defined_data_rule_shape (s : List Char) (st : PState) :
    defined_data_rule s st = st ∨
      ∃ k v, v.offset = k ∧
        defined_data_rule s st = { st with symbols := Table.insert k v st.symbols } := by
  unfold defined_data_rule
  rcases skip_to s SIZE_LIT with ⟨r, _ | _⟩
  · exact Or.inl rfl
  · exact Or.inr ⟨sub64 (strtoull16 s) st.module_offset,
      ⟨SymbolType.Data, [], sub64 (strtoull16 s) st.module_offset, strtoul16 r⟩,
      rfl, rfl⟩

/-- What the range rule can do: nothing, or one write of a size. -/
theorem address_range_rule_shape (s : List Char) (st : PState) :
    address_range_rule s st = st ∨
      ∃ k sz, address_range_rule s st =
        { st with symbols := Table.setSize k sz st.symbols } := by
  unfold address_range_rule
  rcases skip_to s END_LIT with ⟨r, _ | _⟩
  · exact Or.inl rfl
  · dsimp only
    cases st.symbols.find (sub64 (strtoull16 s) st.module_offset) with
    | none => exact Or.inl rfl
    | some e => exact Or.inr ⟨_, _, rfl⟩

/-- What the name rule can do: nothing, or one write of a name. -/
theorem symbol_rule_shape (s : List Char) (st : PState) :
    symbol_rule s st = st ∨
      ∃ k nm, symbol_rule s st = { st with symbols := Table.setName k nm st.symbols } := by
  unfold symbol_rule
  dsimp only
  cases st.symbols.find (sub64 (strtoull16 s) st.module_offset) with
  | none => exact Or.inl rfl
  | some e =>
    dsimp only
    rcases skip_to s NAME_LIT with ⟨r1, _ | _⟩
    · exact Or.inl rfl
    · dsimp only
      rcases skip_to (after_name r1) NAMESPACE_LIT with ⟨r2, _ | _⟩
      · exact Or.inl rfl
      · dsimp only
        rcases skip_to r2 TYPE_LIT with ⟨r3, _ | _⟩
        · exact Or.inl rfl
        · dsimp only
          rcases skip_to r3 PRIMARY_LIT with ⟨r4, _ | _⟩
          · exact Or.inl rfl
          · exact Or.inr ⟨_, _, rfl⟩

/-- One line keeps the `offset` fields equal to the keys. -/
theorem parse_line_keyed (line : List Char) (st : PState)
    (h : Table.KeyedByOffset st.symbols) :
    Table.KeyedByOffset (parse_line line st).symbols := by
  refine parse_line_cases (fun s => Table.KeyedByOffset s.symbols) line st h (fun _ => h)
    (fun _ => h) (fun _ => h) (fun _ => h) ?_ ?_ ?_ ?_
  · intro s
    rcases function_rule_shape s st with e | ⟨k, v, hv, e⟩ <;> rw [e]
    · exact h
    · exact Table.keyed_insert k v _ h hv
  · intro s
    rcases address_range_rule_shape s st with e | ⟨k, sz, e⟩ <;> rw [e]
    · exact h
    · exact Table.keyed_setSize k sz _ h
  · intro s
    rcases defined_data_rule_shape s st with e | ⟨k, v, hv, e⟩ <;> rw [e]
    · exact h
    · exact Table.keyed_insert k v _ h hv
  · intro s
    rcases symbol_rule_shape s st with e | ⟨k, nm, e⟩ <;> rw [e]
    · exact h
    · exact Table.keyed_setName k nm _ h

theorem parse_lines_keyed (lines : List (List Char)) :
    ∀ st : PState, Table.KeyedByOffset st.symbols →
      Table.KeyedByOffset (parse_lines lines st).symbols := by
  induction lines with
  | nil => intro st h; exact h
  | cons l ls ih =>
    intro st h
    exact ih (parse_line l st) (parse_line_keyed l st h)

theorem parse_lines_ordered (lines : List (List Char)) :
    ∀ st : PState, Table.Ordered st.symbols →
      Table.Ordered (parse_lines lines st).symbols := by
  induction lines with
  | nil => intro st h; exact h
  | cons l ls ih =>
    intro st h
    exact ih (parse_line l st) (parse_line_ordered l st h)

theorem Table.nodup_keys_of_ordered (t : Table) (h : Table.Ordered t) :
    (Table.keys t).Nodup :=
  List.Pairwise.imp (fun hab => Nat.ne_of_lt hab) h

theorem Table.length_insert_le (k : Nat) (v : SymbolDef) (t : Table) :
    (Table.insert k v t).length ≤ t.length + 1 := by
  induction t with
  | nil => simp [Table.insert]
  | cons x t ih =>
    obtain ⟨k1, v1⟩ := x
    unfold Table.insert
    split_ifs
    · simp
    · simp
    · simp only [List.length_cons]
      omega

theorem Table.oneKeyChange_refl (t : Table) : Table.OneKeyChange t t :=
  ⟨0, fun _ _ => rfl, fun _ h => h, fun _ h => Or.inr h, Nat.le_succ _⟩

theorem Table.oneKeyChange_insert (k : Nat) (v : SymbolDef) (t : Table) :
    Table.OneKeyChange t (Table.insert k v t) :=
  ⟨k, fun j hj => Table.find_insert_ne k j v t hj,
    fun j hj => (Table.mem_keys_insert k j v t).2 (Or.inr hj),
    fun j hj => (Table.mem_keys_insert k j v t).1 hj,
    Table.length_insert_le k v t⟩

theorem Table.oneKeyChange_setSize (k sz : Nat) (t : Table) :
    Table.OneKeyChange t (Table.setSize k sz t) := by
  have hk := Table.keys_setSize k sz t
  refine ⟨k, fun j hj => Table.find_setSize_ne k j sz t hj, fun j hj => by rw [hk]; exact hj,
    fun j hj => Or.inr (by rw [hk] at hj; exact hj), ?_⟩
  have := congrArg List.length hk
  simp only [Table.keys, List.length_map] at this
  omega

theorem Table.oneKeyChange_setName (k : Nat) (nm : List Char) (t : Table) :
    Table.OneKeyChange t (Table.setName k nm t) := by
  have hk := Table.keys_setName k nm t
  refine ⟨k, fun j hj => Table.find_setName_ne k j nm t hj, fun j hj => by rw [hk]; exact hj,
    fun j hj => Or.inr (by rw [hk] at hj; exact hj), ?_⟩
  have := congrArg List.length hk
  simp only [Table.keys, List.length_map] at this
  omega

/-! ## Further facts about the number reader -/

theorem strtou_lt (w : Nat) (s : List Char) : strtou w s < 2 ^ w := by
  have hpos : 0 < 2 ^ w := Nat.pow_pos (by decide)
  unfold strtou
  rcases take_sign (skip_space s) with ⟨neg, s1⟩
  dsimp only
  split_ifs with h1 h2
  · omega
  · exact Nat.mod_lt _ hpos
  · omega

theorem sub64_of_le (a b : Nat) (hab : a ≤ b) (hb : b < 2 ^ 64) : sub64 b a = b - a := by
  unfold sub64
  have ha : a % 2 ^ 64 = a := Nat.mod_eq_of_lt (by omega)
  rw [ha]
  have : b + 2 ^ 64 - a = (b - a) + 2 ^ 64 := by omega
  rw [this, Nat.add_mod_right]
  exact Nat.mod_eq_of_lt (by omega)

theorem sub64_zero (m : Nat) (h0 : 0 < m) (hm : m < 2 ^ 64) : sub64 0 m = 2 ^ 64 - m := by
  unfold sub64
  have ha : m % 2 ^ 64 = m := Nat.mod_eq_of_lt hm
  rw [ha, Nat.zero_add]
  exact Nat.mod_eq_of_lt (by omega)

/-- The head of the text, if any, is not a hexadecimal digit. -/
theorem hexRun_take_0x_of_head (u : List Char) (h : ∀ c ∈ u.head?, hexDigit c = none) :
    hexRun 0 (take_0x u) = 0 := by
  cases u with
  | nil => rfl
  | cons c u =>
    have hc : hexDigit c = none := h c (by simp)
    have h0 : c ≠ '0' := by
      rintro rfl
      revert hc
      decide
    cases u with
    | nil => simp [take_0x, hexRun, hc]
    | cons d u => simp [take_0x, h0, hexRun, hc]

/-- A text that starts with characters none of which is a hexadecimal digit,
closed by a double quote, holds no number for `strtou`: the value is 0. -/
theorem strtou_no_digits (w : Nat) (V t : List Char) (hV : ∀ c ∈ V, hexDigit c = none) :
    strtou w (V ++ '"' :: t) = 0 := by
  have hq : hexDigit '"' = none := by decide
  have hskip : ∀ V1 : List Char, (∀ c ∈ V1, hexDigit c = none) →
      ∃ V2 : List Char, (∀ c ∈ V2, hexDigit c = none) ∧
        skip_space (V1 ++ '"' :: t) = V2 ++ '"' :: t := by
    intro V1
    induction V1 with
    | nil =>
      intro _
      exact ⟨[], by simp, by simp [skip_space, isspace]⟩
    | cons c V1 ih =>
      intro h1
      have h2 : ∀ d ∈ V1, hexDigit d = none := fun d hd => h1 d (List.mem_cons_of_mem c hd)
      by_cases hs : isspace c = true
      · obtain ⟨V2, h3, h4⟩ := ih h2
        exact ⟨V2, h3, by simp [skip_space, hs, h4]⟩
      · exact ⟨c :: V1, h1, by simp [skip_space, hs]⟩
  obtain ⟨V2, h2, h3⟩ := hskip V hV
  have hsign : ∃ (b : Bool) (V3 : List Char), (∀ c ∈ V3, hexDigit c = none) ∧
      take_sign (V2 ++ '"' :: t) = (b, V3 ++ '"' :: t) := by
    cases V2 with
    | nil => exact ⟨false, [], by simp, by simp [take_sign]⟩
    | cons c V2 =>
      have h4 : ∀ d ∈ V2, hexDigit d = none := fun d hd => h2 d (List.mem_cons_of_mem c hd)
      by_cases c1 : c = '-'
      · exact ⟨true, V2, h4, by simp [take_sign, c1]⟩
      · by_cases c2 : c = '+'
        · exact ⟨false, V2, h4, by simp [take_sign, c1, c2]⟩
        · exact ⟨false, c :: V2, h2, by simp [take_sign, c1, c2]⟩
  obtain ⟨b, V3, h5, h6⟩ := hsign
  have hhead : ∀ c ∈ (V3 ++ '"' :: t).head?, hexDigit c = none := by
    intro c hc
    cases V3 with
    | nil =>
      simp only [List.nil_append, List.head?_cons, Option.mem_def, Option.some.injEq] at hc
      rw [← hc]; exact hq
    | cons d V3 =>
      simp only [List.cons_append, List.head?_cons, Option.mem_def, Option.some.injEq] at hc
      rw [← hc]; exact h5 d (List.mem_cons_self d V3)
  have hrun := hexRun_take_0x_of_head _ hhead
  have hpos : 0 < 2 ^ w := Nat.pow_pos (by decide)
  unfold strtou
  rw [h3, h6]
  dsimp only
  rw [hrun]
  have hle : ¬ 2 ^ w ≤ 0 := by omega
  simp only [hle, if_false, Nat.sub_zero, Nat.mod_self]
  split_ifs <;> rfl

/-! # The claims -/

/-- C1: the example scenario. From the initial state, the eleven example
lines leave the flags closed, the base at `0x400000` and a table of exactly
two entries, `0x1005 ↦ {Function, "gets_s", 0x1005, 4}` and
`0xfee68 ↦ {Data, "g_UiPool", 0xfee68, 0x18}`; both names are non-empty and
both entries are registered, whatever the image base argument. -/
theorem C1_example_scenario :
    parse_lines ex_lines PState.init =
        ⟨false, false, false, 0x400000,
          [(0x1005, ⟨SymbolType.Function, "gets_s".toList, 0x1005, 4⟩),
           (0xfee68, ⟨SymbolType.Data, "g_UiPool".toList, 0xfee68, 0x18⟩)]⟩ ∧
      (∀ e ∈ (parse_lines ex_lines PState.init).symbols, e.2.name ≠ []) ∧
      (∀ B : Nat, register_symbols B (parse_lines ex_lines PState.init).symbols =
        [⟨(B + 0x1005) % 2 ^ 64, 4, "gets_s".toList⟩,
         ⟨(B + 0xfee68) % 2 ^ 64, 0x18, "g_UiPool".toList⟩]) := by
  have h : parse_lines ex_lines PState.init =
        ⟨false, false, false, 0x400000,
          [(0x1005, ⟨SymbolType.Function, "gets_s".toList, 0x1005, 4⟩),
           (0xfee68, ⟨SymbolType.Data, "g_UiPool".toList, 0xfee68, 0x18⟩)]⟩ := by
    decide
  rw [h]
  refine ⟨rfl, by decide, ?_⟩
  intro B
  rfl

/-- C2 (the code at the failing input): with the data section open and the
Function entry `gets_s` stored under `0x1005`, the data line
`<DEFINED_DATA ADDRESS="00401005" DATATYPE=" SIZE=" SIZE="0x18" />` has the
rebased address `0x1005` and holds the marker `" SIZE="0x`, yet `parse_line`
leaves the state as it is: the entry under `0x1005` is still the Function
`gets_s` of size 4, because `skip_to` runs past the marker. -/
theorem C2_size_marker_missed :
    ex_state_in_data.in_data = true ∧
      ex_state_in_data.symbols.find 0x1005 =
        some ⟨SymbolType.Function, "gets_s".toList, 0x1005, 4⟩ ∧
      overlap_data_line = DEFINED_DATA_PFX ++ ("00401005".toList ++ "\" DATATYPE=\" SIZE=".toList ++
        SIZE_LIT ++ ("18".toList ++ '"' :: " />".toList)) ∧
      sub64 (strtoull16 ("00401005".toList ++ "\" DATATYPE=\" SIZE=".toList ++
        SIZE_LIT ++ ("18".toList ++ '"' :: " />".toList))) ex_state_in_data.module_offset =
          0x1005 ∧
      parse_line overlap_data_line ex_state_in_data = ex_state_in_data ∧
      (parse_line overlap_data_line ex_state_in_data).symbols.find 0x1005 =
        some ⟨SymbolType.Function, "gets_s".toList, 0x1005, 4⟩ := by
  decide

/-- C3: a line that opens a symbol entry and whose name value, read after the
first ` NAME="`, is followed by a text in which one of the three markers
` NAMESPACE=""`, ` TYPE="global"`, ` PRIMARY="y"` does not occur, leaves the
state as it is, in any state: the table is unchanged and every entry keeps
its name. -/
theorem C3_name_filter (st : PState) (ws pre n tail : List Char) (hws : Blank ws)
    (hleft : ¬ NAME_LIT <:+: pre ++ NAME_LIT.dropLast)
    (hn : '"' ∉ n) (htail : tail = [] ∨ tail.head? = some '"')
    (hmiss : ¬ NAMESPACE_LIT <:+: tail ∨ ¬ TYPE_LIT <:+: tail ∨ ¬ PRIMARY_LIT <:+: tail) :
    parse_line (ws ++ SYMBOL_PFX ++ (pre ++ NAME_LIT ++ (n ++ tail))) st = st ∧
      (∀ j, (parse_line (ws ++ SYMBOL_PFX ++ (pre ++ NAME_LIT ++ (n ++ tail))) st).symbols.find j =
        st.symbols.find j) := by
  have hskip : skip_to (pre ++ NAME_LIT ++ (n ++ tail)) NAME_LIT = (n ++ tail, true) :=
    skip_to_exact ' ' "NAME=\"".toList pre (n ++ tail) hleft
      (noRiskyEnd_of_noSelfOverlap _ _ _ (by decide))
  have hmain : parse_line (ws ++ SYMBOL_PFX ++ (pre ++ NAME_LIT ++ (n ++ tail))) st = st := by
    rw [parse_line_symbol ws _ st hws]
    split_ifs
    · unfold symbol_rule
      dsimp only
      cases st.symbols.find (sub64 (strtoull16 (pre ++ NAME_LIT ++ (n ++ tail))) st.module_offset) with
      | none => rfl
      | some e =>
        simp only [hskip, after_name_append n tail hn htail]
        rcases h2 : skip_to tail NAMESPACE_LIT with ⟨r2, _ | _⟩
        · rfl
        · dsimp only
          rcases h3 : skip_to r2 TYPE_LIT with ⟨r3, _ | _⟩
          · rfl
          · dsimp only
            rcases h4 : skip_to r3 PRIMARY_LIT with ⟨r4, _ | _⟩
            · rfl
            · exact absurd h4 (fun h => markers_missing tail hmiss r2 r3 r4 h2 h3 h)
    · rfl
  exact ⟨hmain, fun j => by rw [hmain]⟩

/-- C3 at the symbol line of the example with `TYPE="local"`: the data entry
at `0xfee68` keeps its empty name. -/
theorem C3_name_filter_witness :
    (Blank "    ".toList ∧
      ¬ NAME_LIT <:+: "004fee68\"".toList ++ NAME_LIT.dropLast ∧
      '"' ∉ "g_UiPool".toList ∧
      ("\" NAMESPACE=\"\" TYPE=\"local\" PRIMARY=\"y\" />".toList = [] ∨
        "\" NAMESPACE=\"\" TYPE=\"local\" PRIMARY=\"y\" />".toList.head? = some '"') ∧
      (¬ NAMESPACE_LIT <:+: "\" NAMESPACE=\"\" TYPE=\"local\" PRIMARY=\"y\" />".toList ∨
        ¬ TYPE_LIT <:+: "\" NAMESPACE=\"\" TYPE=\"local\" PRIMARY=\"y\" />".toList ∨
        ¬ PRIMARY_LIT <:+: "\" NAMESPACE=\"\" TYPE=\"local\" PRIMARY=\"y\" />".toList)) ∧
    parse_line ("    ".toList ++ SYMBOL_PFX ++ ("004fee68\"".toList ++ NAME_LIT ++
        ("g_UiPool".toList ++ "\" NAMESPACE=\"\" TYPE=\"local\" PRIMARY=\"y\" />".toList)))
        ex_state_in_symbols = ex_state_in_symbols ∧
    ex_state_in_symbols.in_symbols = true ∧
    ex_state_in_symbols.symbols.find 0xfee68 = some ⟨SymbolType.Data, [], 0xfee68, 0x18⟩ :=
  ⟨⟨by decide, by decide, by decide, Or.inr rfl, Or.inr (Or.inl (by decide))⟩,
    (C3_name_filter ex_state_in_symbols "    ".toList "004fee68\"".toList "g_UiPool".toList
      "\" NAMESPACE=\"\" TYPE=\"local\" PRIMARY=\"y\" />".toList
      (by decide) (by decide) (by decide) (Or.inr rfl) (Or.inr (Or.inl (by decide)))).1,
    by decide, by decide⟩

/-- C4: in the symbol table section, a line that after spaces and tabs reads
`<SYMBOL ADDRESS="A"` (`A` hexadecimal digits), has its first ` NAME="`
followed by a name `n` without double quote, and after the closing quote of
`n` holds ` NAMESPACE=""`, then ` TYPE="global"`, then ` PRIMARY="y"`, in that
order, writes `n` into the name of the entry `e` stored under the rebased
address, whatever the earlier name (empty or not) and kind of `e`; kind,
offset and size of `e`, every other entry, the keys, the flags and the base
are as before. -/
theorem C4_name_overwrite (st : PState) (ws A mid n x1 x2 x3 x4 : List Char)
    (e : SymbolDef) (hws : Blank ws) (hin : st.in_symbols = true) (hA : allHex A)
    (hleft : ¬ NAME_LIT <:+: A ++ '"' :: mid ++ NAME_LIT.dropLast)
    (hn : '"' ∉ n) (hx1 : x1.head? = some '"')
    (hfind : st.symbols.find (sub64 (strtoull16 A) st.module_offset) = some e) :
    parse_line (ws ++ SYMBOL_PFX ++ (A ++ '"' :: mid ++ NAME_LIT ++
          (n ++ (x1 ++ NAMESPACE_LIT ++ x2 ++ TYPE_LIT ++ x3 ++ PRIMARY_LIT ++ x4)))) st =
        { st with
          symbols :=
            Table.setName (sub64 (strtoull16 A) st.module_offset) n st.symbols } ∧
      (Table.setName (sub64 (strtoull16 A) st.module_offset) n st.symbols).find
          (sub64 (strtoull16 A) st.module_offset) =
        some ⟨e.type, n, e.offset, e.size⟩ ∧
      (∀ j, j ≠ sub64 (strtoull16 A) st.module_offset →
        (Table.setName (sub64 (strtoull16 A) st.module_offset) n st.symbols).find j =
          st.symbols.find j) ∧
      (Table.setName (sub64 (strtoull16 A) st.module_offset) n st.symbols).keys =
        st.symbols.keys ∧
      (hexValue A < 2 ^ 64 → strtoull16 A = hexValue A) := by
  have hskip : skip_to (A ++ '"' :: mid ++ NAME_LIT ++
      (n ++ (x1 ++ NAMESPACE_LIT ++ x2 ++ TYPE_LIT ++ x3 ++ PRIMARY_LIT ++ x4))) NAME_LIT =
      (n ++ (x1 ++ NAMESPACE_LIT ++ x2 ++ TYPE_LIT ++ x3 ++ PRIMARY_LIT ++ x4), true) :=
    skip_to_exact ' ' "NAME=\"".toList (A ++ '"' :: mid) _ hleft
      (noRiskyEnd_of_noSelfOverlap _ _ _ (by decide))
  have hnum : strtoull16 (A ++ '"' :: mid ++ NAME_LIT ++
      (n ++ (x1 ++ NAMESPACE_LIT ++ x2 ++ TYPE_LIT ++ x3 ++ PRIMARY_LIT ++ x4))) =
      strtoull16 A := by
    have := (strtou_hex_quote 64 A (mid ++ NAME_LIT ++
      (n ++ (x1 ++ NAMESPACE_LIT ++ x2 ++ TYPE_LIT ++ x3 ++ PRIMARY_LIT ++ x4))) hA).1
    simpa [strtoull16, List.append_assoc] using this
  have htail : x1 ++ NAMESPACE_LIT ++ x2 ++ TYPE_LIT ++ x3 ++ PRIMARY_LIT ++ x4 = [] ∨
      (x1 ++ NAMESPACE_LIT ++ x2 ++ TYPE_LIT ++ x3 ++ PRIMARY_LIT ++ x4).head? = some '"' := by
    right
    cases x1 with
    | nil => simp at hx1
    | cons c x1 => simpa using hx1
  obtain ⟨r2, r3, r4, h2, h3, h4⟩ := markers_found _ x1 x2 x3 x4 rfl
  refine ⟨?_, ?_, ?_, ?_, ?_⟩
  · rw [parse_line_symbol ws _ st hws, if_pos hin]
    unfold symbol_rule
    simp only [hnum, hfind, hskip, after_name_append n _ hn htail,
      read_name_append n _ hn htail, h2, h3, h4]
  · have := Table.find_setName_self _ n _ e hfind
    simpa using this
  · intro j hj
    exact Table.find_setName_ne _ _ _ _ hj
  · exact Table.keys_setName _ _ _
  · intro hfit
    have := (strtou_hex_quote 64 A [] hA).2
    rw [if_neg (not_le.2 hfit)] at this
    exact this

/-- C4 at the symbol line of the example, once for the unnamed data entry at
`0xfee68` and the line as it is, read after the nine lines before it. -/
theorem C4_name_overwrite_witness :
    (Blank ([] : List Char) ∧ ex_state_in_symbols.in_symbols = true ∧
      allHex "004fee68".toList ∧
      ¬ NAME_LIT <:+: "004fee68".toList ++ '"' :: [] ++ NAME_LIT.dropLast ∧
      '"' ∉ "g_UiPool".toList ∧ "\"".toList.head? = some '"' ∧
      ex_state_in_symbols.symbols.find
          (sub64 (strtoull16 "004fee68".toList) ex_state_in_symbols.module_offset) =
        some ⟨SymbolType.Data, [], 0xfee68, 0x18⟩) ∧
    parse_line ([] ++ SYMBOL_PFX ++ ("004fee68".toList ++ '"' :: [] ++ NAME_LIT ++
        ("g_UiPool".toList ++ ("\"".toList ++ NAMESPACE_LIT ++ [] ++ TYPE_LIT ++
          " SOURCE_TYPE=\"USER_DEFINED\"".toList ++ PRIMARY_LIT ++ " />".toList))))
        ex_state_in_symbols =
      { ex_state_in_symbols with
        symbols :=
          Table.setName
            (sub64 (strtoull16 "004fee68".toList) ex_state_in_symbols.module_offset)
            "g_UiPool".toList ex_state_in_symbols.symbols } ∧
    [] ++ SYMBOL_PFX ++ ("004fee68".toList ++ '"' :: [] ++ NAME_LIT ++
        ("g_UiPool".toList ++ ("\"".toList ++ NAMESPACE_LIT ++ [] ++ TYPE_LIT ++
          " SOURCE_TYPE=\"USER_DEFINED\"".toList ++ PRIMARY_LIT ++ " />".toList))) =
      ex_symbol ∧
    Table.setName (sub64 (strtoull16 "004fee68".toList) ex_state_in_symbols.module_offset)
        "g_UiPool".toList ex_state_in_symbols.symbols =
      [(0x1005, ⟨SymbolType.Function, "gets_s".toList, 0x1005, 4⟩),
       (0xfee68, ⟨SymbolType.Data, "g_UiPool".toList, 0xfee68, 0x18⟩)] :=
  ⟨⟨by decide, by decide, by decide, by decide, by decide, rfl, by decide⟩,
    (C4_name_overwrite ex_state_in_symbols [] "004fee68".toList [] "g_UiPool".toList
      "\"".toList [] " SOURCE_TYPE=\"USER_DEFINED\"".toList " />".toList
      ⟨SymbolType.Data, [], 0xfee68, 0x18⟩
      (by decide) (by decide) (by decide) (by decide) (by decide) rfl (by decide)).1,
    by decide, by decide⟩

/-- C5: an address-range line whose rebased start has no entry in the table
changes nothing: the state after the line is the state before it, so no entry
is created and the number of entries is the same. -/
theorem C5_range_without_entry (st : PState) (ws rest : List Char) (hws : Blank ws)
    (hnone : st.symbols.find (sub64 (strtoull16 rest) st.module_offset) = none) :
    parse_line (ws ++ ADDRESS_RANGE_PFX ++ rest) st = st ∧
      (parse_line (ws ++ ADDRESS_RANGE_PFX ++ rest) st).symbols.length =
        st.symbols.length := by
  have h : parse_line (ws ++ ADDRESS_RANGE_PFX ++ rest) st = st := by
    rw [parse_line_address_range ws rest st hws]
    split_ifs
    · unfold address_range_rule
      rcases skip_to rest END_LIT with ⟨r, _ | _⟩
      · rfl
      · simp only [hnone]
    · rfl
  exact ⟨h, by rw [h]⟩

/-- C5 at the range line of the example, read in the functions section before
any function was declared: the table stays empty. -/
theorem C5_range_without_entry_witness :
    (Blank "  ".toList ∧
      (parse_lines [ex_program, "<FUNCTIONS>".toList] PState.init).symbols.find
        (sub64 (strtoull16 "00401005\" END=\"00401009\" />".toList)
          (parse_lines [ex_program, "<FUNCTIONS>".toList] PState.init).module_offset) =
        none) ∧
    parse_line ("  ".toList ++ ADDRESS_RANGE_PFX ++ "00401005\" END=\"00401009\" />".toList)
        (parse_lines [ex_program, "<FUNCTIONS>".toList] PState.init) =
      parse_lines [ex_program, "<FUNCTIONS>".toList] PState.init ∧
    (parse_lines [ex_program, "<FUNCTIONS>".toList] PState.init).in_functions = true :=
  ⟨⟨by decide, by decide⟩,
    (C5_range_without_entry (parse_lines [ex_program, "<FUNCTIONS>".toList] PState.init)
      "  ".toList "00401005\" END=\"00401009\" />".toList (by decide) (by decide)).1,
    by decide⟩

/-- C6: once the base is set (non-zero), no line changes it, and so no
sequence of lines changes it. -/
theorem C6_module_base_captured_once (st : PState) (h : st.module_offset ≠ 0) :
    (∀ line : List Char, (parse_line line st).module_offset = st.module_offset) ∧
      (∀ lines : List (List Char),
        (parse_lines lines st).module_offset = st.module_offset) := by
  refine ⟨fun line => parse_line_module_offset line st h, ?_⟩
  intro lines
  induction lines generalizing st with
  | nil => rfl
  | cons l ls ih =>
    have h1 := parse_line_module_offset l st h
    have h2 := ih (parse_line l st) (by rw [h1]; exact h)
    simp only [parse_lines, List.foldl_cons] at h2 ⊢
    rw [h2, h1]

/-- C6 after the program line of the example: a second program line with the
image base `0x10000000` leaves the base at `0x400000`. -/
theorem C6_module_base_captured_once_witness :
    (parse_lines [ex_program] PState.init).module_offset ≠ 0 ∧
      (parse_line second_program_line (parse_lines [ex_program] PState.init)).module_offset =
        0x400000 ∧
      (parse_line second_program_line PState.init).module_offset = 0x10000000 :=
  ⟨by decide,
    ((C6_module_base_captured_once (parse_lines [ex_program] PState.init)
      (by decide)).1 second_program_line).trans (by decide),
    by decide⟩

/-- C7: the registration loop issues exactly one request
`(B + offset mod 2^64, size, name)` for each entry with a non-empty name, in
the order of the table, which is the ascending order of the keys; no request
carries an empty name; the requests of a run of `addsym` are these, computed
from the image base argument and from the table of the run, which is in
ascending key order. -/
theorem C7_registration (B : Nat) (t : Table) (ht : t.Ordered) :
    register_symbols B t = (t.filter named).map (request_of B) ∧
      (∀ r ∈ register_symbols B t, r.name ≠ []) ∧
      (∀ e ∈ t, e.2.name = [] → request_of B e ∉ register_symbols B t) ∧
      ((t.filter named).map Prod.fst).Pairwise (· < ·) ∧
      (∀ (statics : Statics) (intr : Nat → Bool) (lines : List (List Char)),
        (addsym statics B intr lines).requests =
            register_symbols B (addsym statics B intr lines).symbols ∧
          Table.Ordered (addsym statics B intr lines).symbols) := by
  have hnames : ∀ r ∈ register_symbols B t, r.name ≠ [] := by
    intro r hr
    rw [register_symbols_eq] at hr
    obtain ⟨e, he, rfl⟩ := List.mem_map.1 hr
    have := (List.mem_filter.1 he).2
    simpa [named, request_of] using this
  refine ⟨register_symbols_eq B t, hnames, ?_, ?_, ?_⟩
  · intro e _ hname hmem
    exact hnames _ hmem (by simpa [request_of] using hname)
  · have hsub : ((t.filter named).map Prod.fst).Sublist (t.map Prod.fst) :=
      (List.filter_sublist t).map Prod.fst
    exact List.Pairwise.sublist hsub ht
  · intro statics intr lines
    exact ⟨rfl, addsym_ordered statics B intr lines⟩

/-- C7 at a table of three entries, the middle one unnamed, with an image base
that makes the addresses wrap around `2^64`. -/
theorem C7_registration_witness :
    Table.Ordered sample_table ∧
      register_symbols (2 ^ 64 - 0x1000) sample_table =
        [⟨5, 4, "gets_s".toList⟩, ⟨0xfde68, 0x18, "g_UiPool".toList⟩] :=
  ⟨by decide, (C7_registration (2 ^ 64 - 0x1000) sample_table (by decide)).1.trans (by decide)⟩

/-- C8: in the functions section, a line that after spaces and tabs reads
`<FUNCTION ENTRY_POINT="H` (`H` hexadecimal digits), then a double quote that
closes `H` and, at its first occurrence, the marker `" NAME="` followed by a
name `n` without double quote that runs to the next double quote or to the end
of the line, maps the key `k = (H - module_offset) mod 2^64` to
`{Function, n, k, 4}`, whatever the table held under `k`, and leaves every
other key as it was; `H` is read by `strtoull`, which gives the value of the
digits when it fits 64 bits. -/
theorem C8_function_declaration (st : PState) (ws H mid n tail : List Char)
    (hws : Blank ws) (hin : st.in_functions = true) (hH : allHex H)
    (hmid : mid = [] ∨ mid.head? = some '"')
    (hleft : ¬ NAME_Q_LIT <:+: H ++ mid ++ NAME_Q_LIT.dropLast)
    (hn : '"' ∉ n) (htail : tail = [] ∨ tail.head? = some '"') :
    parse_line (ws ++ FUNCTION_PFX ++ (H ++ mid ++ NAME_Q_LIT ++ (n ++ tail))) st =
        { st with
          symbols :=
            Table.insert (sub64 (strtoull16 H) st.module_offset)
              ⟨SymbolType.Function, n, sub64 (strtoull16 H) st.module_offset, 4⟩
              st.symbols } ∧
      (parse_line (ws ++ FUNCTION_PFX ++ (H ++ mid ++ NAME_Q_LIT ++ (n ++ tail))) st).symbols.find
          (sub64 (strtoull16 H) st.module_offset) =
        some ⟨SymbolType.Function, n, sub64 (strtoull16 H) st.module_offset, 4⟩ ∧
      (∀ j, j ≠ sub64 (strtoull16 H) st.module_offset →
        (parse_line (ws ++ FUNCTION_PFX ++ (H ++ mid ++ NAME_Q_LIT ++ (n ++ tail))) st).symbols.find j =
          st.symbols.find j) ∧
      (hexValue H < 2 ^ 64 → strtoull16 H = hexValue H) := by
  have hskip : skip_to (H ++ mid ++ NAME_Q_LIT ++ (n ++ tail)) NAME_Q_LIT = (n ++ tail, true) :=
    skip_to_exact '"' " NAME=\"".toList (H ++ mid) (n ++ tail) hleft
      (noRiskyEnd_of_noSelfOverlap _ _ _ (by decide))
  have hnum : strtoull16 (H ++ mid ++ NAME_Q_LIT ++ (n ++ tail)) = strtoull16 H := by
    rcases hmid with rfl | hm
    · have e : H ++ [] ++ NAME_Q_LIT ++ (n ++ tail) =
          H ++ '"' :: (" NAME=\"".toList ++ (n ++ tail)) := by
        rw [List.append_nil, List.append_assoc]; rfl
      rw [e]
      exact (strtou_hex_quote 64 H (" NAME=\"".toList ++ (n ++ tail)) hH).1
    · cases mid with
      | nil => simp at hm
      | cons c mid' =>
        simp only [List.head?_cons, Option.some.injEq] at hm
        subst hm
        have := (strtou_hex_quote 64 H (mid' ++ NAME_Q_LIT ++ (n ++ tail)) hH).1
        simpa [strtoull16, List.append_assoc] using this
  have hmain : parse_line (ws ++ FUNCTION_PFX ++ (H ++ mid ++ NAME_Q_LIT ++ (n ++ tail))) st =
      { st with
        symbols :=
          Table.insert (sub64 (strtoull16 H) st.module_offset)
            ⟨SymbolType.Function, n, sub64 (strtoull16 H) st.module_offset, 4⟩
            st.symbols } := by
    rw [parse_line_function ws _ st hws, if_pos hin]
    unfold function_rule
    simp only [hskip, hnum, read_name_append n tail hn htail]
  refine ⟨hmain, ?_, ?_, ?_⟩
  · rw [hmain]; exact Table.find_insert_self _ _ _
  · intro j hj
    rw [hmain]; exact Table.find_insert_ne _ _ _ _ hj
  · intro hfit
    have := (strtou_hex_quote 64 H [] hH).2
    rw [if_neg (not_le.2 hfit)] at this
    exact this

/-- C8 at the function line of the example, indented, after the base line
and the opening of the functions section. -/
theorem C8_function_declaration_witness :
    (Blank "\t  ".toList ∧
      (parse_lines [ex_program, "<FUNCTIONS>".toList] PState.init).in_functions = true ∧
      allHex "00401005".toList ∧
      (([] : List Char) = [] ∨ ([] : List Char).head? = some '"') ∧
      ¬ NAME_Q_LIT <:+: "00401005".toList ++ [] ++ NAME_Q_LIT.dropLast ∧
      '"' ∉ "gets_s".toList ∧
      ("\" LIBRARY_FUNCTION=\"n\">".toList = [] ∨
        "\" LIBRARY_FUNCTION=\"n\">".toList.head? = some '"')) ∧
    (parse_line ("\t  ".toList ++ FUNCTION_PFX ++
        ("00401005".toList ++ [] ++ NAME_Q_LIT ++
          ("gets_s".toList ++ "\" LIBRARY_FUNCTION=\"n\">".toList)))
        (parse_lines [ex_program, "<FUNCTIONS>".toList] PState.init)).symbols.find 0x1005 =
      some ⟨SymbolType.Function, "gets_s".toList, 0x1005, 4⟩ :=
  ⟨⟨by decide, by decide, by decide, Or.inl rfl, by decide, by decide, Or.inr rfl⟩,
    (C8_function_declaration (parse_lines [ex_program, "<FUNCTIONS>".toList] PState.init)
      "\t  ".toList "00401005".toList [] "gets_s".toList "\" LIBRARY_FUNCTION=\"n\">".toList
      (by decide) (by decide) (by decide) (Or.inl rfl) (by decide) (by decide)
      (Or.inr rfl)).2.1⟩

/-- C9 (the code at the failing input): the flags of `parse_line` are statics,
so a second run of `addsym` starts from the flags the first run left. On the
two lines `<FUNCTION ENTRY_POINT="00401005" NAME="f">`, `<FUNCTIONS>` the first
run builds the empty table, registers nothing and leaves `in_functions` set;
the second run, on the same lines, builds a table with the entry
`0x401005 ↦ {Function, "f", 0x401005, 4}` and registers it. -/
theorem C9_flags_survive_a_run :
    (addsym Statics.init 0 no_interrupt unclosed_section_lines).symbols = [] ∧
      (addsym Statics.init 0 no_interrupt unclosed_section_lines).requests = [] ∧
      (addsym Statics.init 0 no_interrupt unclosed_section_lines).statics =
        ⟨true, false, false⟩ ∧
      (addsym (addsym Statics.init 0 no_interrupt unclosed_section_lines).statics 0
          no_interrupt unclosed_section_lines).symbols =
        [(0x401005, ⟨SymbolType.Function, "f".toList, 0x401005, 4⟩)] ∧
      (addsym (addsym Statics.init 0 no_interrupt unclosed_section_lines).statics 0
          no_interrupt unclosed_section_lines).requests =
        [⟨0x401005, 4, "f".toList⟩] ∧
      (addsym (addsym Statics.init 0 no_interrupt unclosed_section_lines).statics 0
          no_interrupt unclosed_section_lines).symbols ≠
        (addsym Statics.init 0 no_interrupt unclosed_section_lines).symbols := by
  decide

/-- C10 (the code at the failing input): `skip_to` does not go back after a
partial match, so it misses an occurrence that starts inside one. In the text
`00401005" DATATYPE=" SIZE=" SIZE="0x18" />`, which `parse_line` hands to
`skip_to` on a data line, the literal `" SIZE="0x` of the data rule occurs,
and `skip_to` answers `false` with the cursor at the end of the text;
likewise for `aab` in `aaab`. -/
theorem C10_skip_to_misses_occurrence :
    SIZE_LIT <:+: "00401005\" DATATYPE=\" SIZE=\" SIZE=\"0x18\" />".toList ∧
      skip_to "00401005\" DATATYPE=\" SIZE=\" SIZE=\"0x18\" />".toList SIZE_LIT =
        ([], false) ∧
      "aab".toList <:+: "aaab".toList ∧
      skip_to "aaab".toList "aab".toList = ([], false) := by
  decide

/-- C11 (the code at the failing input): a `true` answer of `skip_to` leaves
the cursor after an occurrence of the literal, not always the leftmost one.
In `aaab aab` the literal `aab` first occurs at index 1 and is followed by
` aab`, but `skip_to` misses it and stops after the second occurrence, at the
end of the text. In the text that `parse_line` hands over on the data line
`<DEFINED_DATA ADDRESS="00401005" DATATYPE=" SIZE=" SIZE="0x18" NOTE="" SIZE="0x20" />`
the first `" SIZE="0x` is followed by `18"`, the cursor is left at `20"`. -/
theorem C11_cursor_after_later_occurrence :
    "aaab aab".toList = "a".toList ++ "aab".toList ++ " aab".toList ∧
      skip_to "aaab aab".toList "aab".toList = ([], true) ∧
      "00401005\" DATATYPE=\" SIZE=\" SIZE=\"0x18\" NOTE=\"\" SIZE=\"0x20\" />".toList =
        "00401005\" DATATYPE=\" SIZE=".toList ++ SIZE_LIT ++
          "18\" NOTE=\"\" SIZE=\"0x20\" />".toList ∧
      skip_to "00401005\" DATATYPE=\" SIZE=\" SIZE=\"0x18\" NOTE=\"\" SIZE=\"0x20\" />".toList
          SIZE_LIT =
        ("20\" />".toList, true) := by
  decide

/-- C12: the contract of `has_prefix`. With `t'` the text `t` without its
leading spaces and tabs, which is what the first loop computes, the answer is
`true` exactly when the literal `l` is a prefix of `t'`; on `true` the cursor
is at `t'` with `l` removed, on `false` it is still at `t`. -/
theorem C12_has_prefix_contract (t l : List Char) :
    skip_ws t = leading_blanks_removed t ∧
      (( has_prefix t l).2 = true ↔ l <+: leading_blanks_removed t) ∧
      (( has_prefix t l).2 = true →
        leading_blanks_removed t = l ++ ( has_prefix t l).1) ∧
      (( has_prefix t l).2 = false → ( has_prefix t l).1 = t) := by
  have hws := skip_ws_eq_dropWhile t
  refine ⟨hws, ?_⟩
  rw [← hws]
  unfold has_prefix
  cases hm : match_lit (skip_ws t) l with
  | none =>
    refine ⟨⟨fun h => by simp at h, ?_⟩, fun h => by simp at h, fun _ => rfl⟩
    rintro ⟨r, hr⟩
    have := (match_lit_eq_some l (skip_ws t) r).2 hr.symm
    rw [hm] at this
    exact absurd this (by simp)
  | some r =>
    have hr := (match_lit_eq_some l (skip_ws t) r).1 hm
    exact ⟨⟨fun _ => ⟨r, hr.symm⟩, fun _ => rfl⟩, fun _ => hr, fun h => by simp at h⟩

/-- C13: section gating. A line that after spaces and tabs opens a function
entry or an address range while `in_functions` is false, a data definition
while `in_data` is false, or a symbol entry while `in_symbols` is false,
leaves the whole state as it is: table, flags and base. -/
theorem C13_section_gating (st : PState) (ws rest : List Char) (hws : Blank ws) :
    (st.in_functions = false → parse_line (ws ++ FUNCTION_PFX ++ rest) st = st) ∧
      (st.in_functions = false → parse_line (ws ++ ADDRESS_RANGE_PFX ++ rest) st = st) ∧
      (st.in_data = false → parse_line (ws ++ DEFINED_DATA_PFX ++ rest) st = st) ∧
      (st.in_symbols = false → parse_line (ws ++ SYMBOL_PFX ++ rest) st = st) := by
  refine ⟨?_, ?_, ?_, ?_⟩
  · intro h
    rw [parse_line_function ws rest st hws, h]
    simp
  · intro h
    rw [parse_line_address_range ws rest st hws, h]
    simp
  · intro h
    rw [parse_line_defined_data ws rest st hws, h]
    simp
  · intro h
    rw [parse_line_symbol ws rest st hws, h]
    simp

/-- C13 at the four declaration lines of the example, read in the initial
state, where no section is open. -/
theorem C13_section_gating_witness :
    (Blank ([] : List Char) ∧ PState.init.in_functions = false ∧
      PState.init.in_data = false ∧ PState.init.in_symbols = false) ∧
    parse_line ([] ++ FUNCTION_PFX ++
        "00401005\" NAME=\"gets_s\" LIBRARY_FUNCTION=\"n\">".toList) PState.init =
      PState.init ∧
    [] ++ FUNCTION_PFX ++ "00401005\" NAME=\"gets_s\" LIBRARY_FUNCTION=\"n\">".toList =
      ex_function ∧
    parse_line ex_range PState.init = PState.init ∧
    parse_line ex_data PState.init = PState.init ∧
    parse_line ex_symbol PState.init = PState.init :=
  ⟨⟨by decide, rfl, rfl, rfl⟩,
    (C13_section_gating PState.init []
      "00401005\" NAME=\"gets_s\" LIBRARY_FUNCTION=\"n\">".toList (by decide)).1 rfl,
    by decide, by decide, by decide, by decide⟩

/-- C14: the key invariant. If every entry of the table has its `offset`
field equal to its key, the same holds after any line in any state, and so
after any sequence of lines; a table built from the empty table, from any
flags and base, has it and has no two entries with the same offset, because
an assignment under a key that is present replaces the entry: the later
declaration wins. -/
theorem C14_key_invariant (st : PState) (h : st.symbols.KeyedByOffset) :
    (∀ line : List Char, (parse_line line st).symbols.KeyedByOffset) ∧
      (∀ lines : List (List Char), (parse_lines lines st).symbols.KeyedByOffset) ∧
      (∀ (f1 f2 f3 : Bool) (mo : Nat) (lines : List (List Char)),
        (parse_lines lines ⟨f1, f2, f3, mo, []⟩).symbols.KeyedByOffset ∧
          (∀ e1 ∈ (parse_lines lines ⟨f1, f2, f3, mo, []⟩).symbols,
            ∀ e2 ∈ (parse_lines lines ⟨f1, f2, f3, mo, []⟩).symbols,
              e1.2.offset = e2.2.offset → e1 = e2)) ∧
      (∀ (k : Nat) (v : SymbolDef), (Table.insert k v st.symbols).find k = some v) := by
  refine ⟨fun line => parse_line_keyed line st h, fun lines => parse_lines_keyed lines st h,
    ?_, fun k v => Table.find_insert_self k v st.symbols⟩
  intro f1 f2 f3 mo lines
  have hk : Table.KeyedByOffset (parse_lines lines ⟨f1, f2, f3, mo, []⟩).symbols :=
    parse_lines_keyed lines _ (by simp [Table.KeyedByOffset])
  have ho : Table.Ordered (parse_lines lines ⟨f1, f2, f3, mo, []⟩).symbols :=
    parse_lines_ordered lines _ (by simp [Table.Ordered, Table.keys])
  refine ⟨hk, ?_⟩
  intro e1 h1 e2 h2 he
  have hn := Table.nodup_keys_of_ordered _ ho
  apply List.inj_on_of_nodup_map hn h1 h2
  rw [← hk e1 h1, ← hk e2 h2]
  exact he

/-- C14 at the state of the example with the data section open and the data
line of the example placed at the address of `gets_s`: the table is keyed by
offset before and after. -/
theorem C14_key_invariant_witness :
    ex_state_in_data.symbols.KeyedByOffset ∧
      (parse_line
        "<DEFINED_DATA ADDRESS=\"00401005\" DATATYPE=\"string\" SIZE=\"0x18\" />".toList
        ex_state_in_data).symbols.KeyedByOffset ∧
      (parse_line
        "<DEFINED_DATA ADDRESS=\"00401005\" DATATYPE=\"string\" SIZE=\"0x18\" />".toList
        ex_state_in_data).symbols = [(0x1005, ⟨SymbolType.Data, [], 0x1005, 0x18⟩)] :=
  ⟨by decide,
    (C14_key_invariant ex_state_in_data (by decide)).1
      "<DEFINED_DATA ADDRESS=\"00401005\" DATATYPE=\"string\" SIZE=\"0x18\" />".toList,
    by decide⟩

/-- C15: at most one rule fires per line. The state after a line differs
from the state before it in at most one component: the base, or one of the
three flags, or the table; and a new table comes from the old one by a change
under at most one key: no key is removed, at most one is added, and outside
one key the two tables hold the same. -/
theorem C15_one_rule_per_line (line : List Char) (st : PState) :
    (∃ v, parse_line line st = { st with module_offset := v }) ∨
      (∃ b, parse_line line st = { st with in_functions := b }) ∨
      (∃ b, parse_line line st = { st with in_data := b }) ∨
      (∃ b, parse_line line st = { st with in_symbols := b }) ∨
      (∃ t1, parse_line line st = { st with symbols := t1 } ∧
        Table.OneKeyChange st.symbols t1) := by
  have hinsert : ∀ k v, ∃ t1,
      ({ st with symbols := Table.insert k v st.symbols } : PState) =
        { st with symbols := t1 } ∧ Table.OneKeyChange st.symbols t1 :=
    fun k v => ⟨_, rfl, Table.oneKeyChange_insert k v st.symbols⟩
  have hsame : ∃ t1, st = { st with symbols := t1 } ∧ Table.OneKeyChange st.symbols t1 :=
    ⟨st.symbols, rfl, Table.oneKeyChange_refl st.symbols⟩
  refine parse_line_cases
    (fun s => (∃ v, s = { st with module_offset := v }) ∨
      (∃ b, s = { st with in_functions := b }) ∨
      (∃ b, s = { st with in_data := b }) ∨
      (∃ b, s = { st with in_symbols := b }) ∨
      (∃ t1, s = { st with symbols := t1 } ∧ Table.OneKeyChange st.symbols t1))
    line st ?_ ?_ ?_ ?_ ?_ ?_ ?_ ?_ ?_
  · exact Or.inr (Or.inr (Or.inr (Or.inr hsame)))
  · intro v; exact Or.inl ⟨v, rfl⟩
  · intro b; exact Or.inr (Or.inl ⟨b, rfl⟩)
  · intro b; exact Or.inr (Or.inr (Or.inl ⟨b, rfl⟩))
  · intro b; exact Or.inr (Or.inr (Or.inr (Or.inl ⟨b, rfl⟩)))
  · intro s
    refine Or.inr (Or.inr (Or.inr (Or.inr ?_)))
    rcases function_rule_shape s st with e | ⟨k, v, -, e⟩ <;> rw [e]
    · exact hsame
    · exact hinsert k v
  · intro s
    refine Or.inr (Or.inr (Or.inr (Or.inr ?_)))
    rcases address_range_rule_shape s st with e | ⟨k, sz, e⟩ <;> rw [e]
    · exact hsame
    · exact ⟨_, rfl, Table.oneKeyChange_setSize k sz st.symbols⟩
  · intro s
    refine Or.inr (Or.inr (Or.inr (Or.inr ?_)))
    rcases defined_data_rule_shape s st with e | ⟨k, v, -, e⟩ <;> rw [e]
    · exact hsame
    · exact hinsert k v
  · intro s
    refine Or.inr (Or.inr (Or.inr (Or.inr ?_)))
    rcases symbol_rule_shape s st with e | ⟨k, nm, e⟩ <;> rw [e]
    · exact hsame
    · exact ⟨_, rfl, Table.oneKeyChange_setName k nm st.symbols⟩

/-- C16: section tracking. A line that after spaces and tabs starts with
`<FUNCTIONS`, `<DATA` or `<SYMBOL_TABLE` sets the flag of that section to
"the next character is not `/`" (true at the end of the line too), whatever
the flag was; a line that starts with `</FUNCTIONS>`, `</DATA>` or
`</SYMBOL_TABLE>` leaves that flag false; the two other flags, the base and
the table are as before. Only the prefix is matched: `<DATATYPES>` sets
`in_data`. -/
theorem C16_section_tracking (st : PState) (ws rest : List Char) (hws : Blank ws) :
    parse_line (ws ++ FUNCTIONS_PFX ++ rest) st =
        { st with in_functions := not_slash rest } ∧
      parse_line (ws ++ DATA_PFX ++ rest) st = { st with in_data := not_slash rest } ∧
      parse_line (ws ++ SYMBOL_TABLE_PFX ++ rest) st =
        { st with in_symbols := not_slash rest } ∧
      (not_slash rest = true ↔ rest.head? ≠ some '/') ∧
      parse_line (ws ++ FUNCTIONS_END ++ rest) st = { st with in_functions := false } ∧
      parse_line (ws ++ DATA_END ++ rest) st = { st with in_data := false } ∧
      parse_line (ws ++ SYMBOL_TABLE_END ++ rest) st = { st with in_symbols := false } ∧
      parse_line "<DATATYPES>".toList st = { st with in_data := true } :=
  ⟨parse_line_functions_tag ws rest st hws, parse_line_data_tag ws rest st hws,
    parse_line_symbol_table_tag ws rest st hws, not_slash_iff rest,
    parse_line_functions_end ws rest st hws, parse_line_data_end ws rest st hws,
    parse_line_symbol_table_end ws rest st hws,
    parse_line_data_tag [] "TYPES>".toList st (by decide)⟩

/-- C16 at a state with the data section open: an indented `<DATA/>` closes
it, an indented `<FUNCTIONS>` opens the functions section. -/
theorem C16_section_tracking_witness :
    Blank "\t ".toList ∧
      parse_line ("\t ".toList ++ DATA_PFX ++ "/>".toList) sample_state =
        { sample_state with in_data := false } ∧
      parse_line ("\t ".toList ++ FUNCTIONS_PFX ++ "/>".toList) sample_state =
        { sample_state with in_functions := false } ∧
      parse_line "\t <FUNCTIONS>".toList sample_state =
        { sample_state with in_functions := true } :=
  ⟨by decide,
    ((C16_section_tracking sample_state "\t ".toList "/>".toList (by decide)).2.1).trans
      (by decide),
    ((C16_section_tracking sample_state "\t ".toList "/>".toList (by decide)).1).trans
      (by decide),
    by decide⟩

/-- C17, as amended: in the functions section, a line that after spaces and
tabs reads `<ADDRESS_RANGE START="a` (`a` hexadecimal digits), a closing
double quote, at its first occurrence the marker `" END="`, the digits `b`
and a double quote, with `a ≤ b`, writes `(b - a) mod 2^32` into the size of
the entry `e` stored under `(a - module_offset) mod 2^64`: the size is
computed from the two raw addresses, without the base, and cut to the 32 bits
of the field, so it is `b - a` when that fits 32 bits. Kind, name and offset
of `e`, every other entry and the keys are as before. -/
theorem C17_size_refinement (st : PState) (ws a mid b tail : List Char) (e : SymbolDef)
    (hws : Blank ws) (hin : st.in_functions = true) (ha : allHex a)
    (hmid : mid = [] ∨ mid.head? = some '"')
    (hleft : ¬ END_LIT <:+: a ++ mid ++ END_LIT.dropLast)
    (hb : allHex b) (hab : strtoull16 a ≤ strtoull16 b)
    (hfind : st.symbols.find (sub64 (strtoull16 a) st.module_offset) = some e) :
    parse_line (ws ++ ADDRESS_RANGE_PFX ++ (a ++ mid ++ END_LIT ++ (b ++ '"' :: tail))) st =
        { st with
          symbols :=
            Table.setSize (sub64 (strtoull16 a) st.module_offset)
              ((strtoull16 b - strtoull16 a) % 2 ^ 32) st.symbols } ∧
      (Table.setSize (sub64 (strtoull16 a) st.module_offset)
          ((strtoull16 b - strtoull16 a) % 2 ^ 32) st.symbols).find
          (sub64 (strtoull16 a) st.module_offset) =
        some ⟨e.type, e.name, e.offset, (strtoull16 b - strtoull16 a) % 2 ^ 32⟩ ∧
      (∀ j, j ≠ sub64 (strtoull16 a) st.module_offset →
        (Table.setSize (sub64 (strtoull16 a) st.module_offset)
          ((strtoull16 b - strtoull16 a) % 2 ^ 32) st.symbols).find j = st.symbols.find j) ∧
      (Table.setSize (sub64 (strtoull16 a) st.module_offset)
          ((strtoull16 b - strtoull16 a) % 2 ^ 32) st.symbols).keys = st.symbols.keys ∧
      (strtoull16 b - strtoull16 a < 2 ^ 32 →
        (strtoull16 b - strtoull16 a) % 2 ^ 32 = strtoull16 b - strtoull16 a) ∧
      (hexValue a < 2 ^ 64 → strtoull16 a = hexValue a) ∧
      (hexValue b < 2 ^ 64 → strtoull16 b = hexValue b) := by
  have hskip : skip_to (a ++ mid ++ END_LIT ++ (b ++ '"' :: tail)) END_LIT =
      (b ++ '"' :: tail, true) :=
    skip_to_exact '"' " END=\"".toList (a ++ mid) (b ++ '"' :: tail) hleft
      (noRiskyEnd_of_noSelfOverlap _ _ _ (by decide))
  have hstart : strtoull16 (a ++ mid ++ END_LIT ++ (b ++ '"' :: tail)) = strtoull16 a := by
    rcases hmid with rfl | hm
    · have e1 : a ++ [] ++ END_LIT ++ (b ++ '"' :: tail) =
          a ++ '"' :: (" END=\"".toList ++ (b ++ '"' :: tail)) := by
        rw [List.append_nil, List.append_assoc]; rfl
      rw [e1]
      exact (strtou_hex_quote 64 a _ ha).1
    · cases mid with
      | nil => simp at hm
      | cons c mid1 =>
        simp only [List.head?_cons, Option.some.injEq] at hm
        subst hm
        have := (strtou_hex_quote 64 a (mid1 ++ END_LIT ++ (b ++ '"' :: tail)) ha).1
        simpa [strtoull16, List.append_assoc] using this
  have hend : strtoull16 (b ++ '"' :: tail) = strtoull16 b :=
    (strtou_hex_quote 64 b tail hb).1
  have hsub : sub64 (strtoull16 b) (strtoull16 a) = strtoull16 b - strtoull16 a :=
    sub64_of_le _ _ hab (strtou_lt 64 b)
  refine ⟨?_, ?_, ?_, ?_, ?_, ?_, ?_⟩
  · rw [parse_line_address_range ws _ st hws, if_pos hin]
    unfold address_range_rule
    simp only [hskip, hstart, hend, hfind, hsub]
  · have := Table.find_setSize_self _ ((strtoull16 b - strtoull16 a) % 2 ^ 32) _ e hfind
    simpa using this
  · intro j hj
    exact Table.find_setSize_ne _ _ _ _ hj
  · exact Table.keys_setSize _ _ _
  · intro hfit
    exact Nat.mod_eq_of_lt hfit
  · intro hfit
    have := (strtou_hex_quote 64 a [] ha).2
    rw [if_neg (not_le.2 hfit)] at this
    exact this
  · intro hfit
    have := (strtou_hex_quote 64 b [] hb).2
    rw [if_neg (not_le.2 hfit)] at this
    exact this

/-- C17, as amended, at the range line of the example, indented, after the
function `gets_s` was declared: the entry at `0x1005` gets the size
`0x1009 - 0x1005 = 4`. -/
theorem C17_size_refinement_witness :
    (Blank "    ".toList ∧
      (parse_lines [ex_program, "<FUNCTIONS>".toList, ex_function] PState.init).in_functions =
        true ∧
      allHex "00401005".toList ∧
      (([] : List Char) = [] ∨ ([] : List Char).head? = some '"') ∧
      ¬ END_LIT <:+: "00401005".toList ++ [] ++ END_LIT.dropLast ∧
      allHex "00401009".toList ∧
      strtoull16 "00401005".toList ≤ strtoull16 "00401009".toList ∧
      (parse_lines [ex_program, "<FUNCTIONS>".toList, ex_function] PState.init).symbols.find
          (sub64 (strtoull16 "00401005".toList)
            (parse_lines [ex_program, "<FUNCTIONS>".toList, ex_function]
              PState.init).module_offset) =
        some ⟨SymbolType.Function, "gets_s".toList, 0x1005, 4⟩) ∧
    (parse_line ("    ".toList ++ ADDRESS_RANGE_PFX ++
        ("00401005".toList ++ [] ++ END_LIT ++ ("00401009".toList ++ '"' :: " />".toList)))
        (parse_lines [ex_program, "<FUNCTIONS>".toList, ex_function] PState.init)).symbols =
      [(0x1005, ⟨SymbolType.Function, "gets_s".toList, 0x1005, 4⟩)] :=
  ⟨⟨by decide, by decide, by decide, Or.inl rfl, by decide, by decide, by decide, by decide⟩,
    (congrArg PState.symbols
      (C17_size_refinement
        (parse_lines [ex_program, "<FUNCTIONS>".toList, ex_function] PState.init)
        "    ".toList "00401005".toList [] "00401009".toList " />".toList
        ⟨SymbolType.Function, "gets_s".toList, 0x1005, 4⟩
        (by decide) (by decide) (by decide) (Or.inl rfl) (by decide) (by decide) (by decide)
        (by decide)).1).trans (by decide)⟩

/-- C17, the claim as stated fails: with the functions section open, the base
unset and the entry `{Function, "f", 0, 4}` under key 0, the line
`<ADDRESS_RANGE START="00000000" END="100000010" />` has `a = 0 ≤ b`, and
`b - a = 0x100000010`, but the size written is `0x10`: the difference is cut
to 32 bits. -/
theorem C17_size_is_cut_to_32_bits :
    state_f_at_zero.in_functions = true ∧
      state_f_at_zero.symbols.find (sub64 (hexValue "00000000".toList)
          state_f_at_zero.module_offset) =
        some ⟨SymbolType.Function, "f".toList, 0, 4⟩ ∧
      hexValue "00000000".toList ≤ hexValue "100000010".toList ∧
      hexValue "100000010".toList - hexValue "00000000".toList = 0x100000010 ∧
      (parse_line wide_range_line state_f_at_zero).symbols.find 0 =
        some ⟨SymbolType.Function, "f".toList, 0, 0x10⟩ ∧
      (parse_line wide_range_line state_f_at_zero).symbols.find 0 ≠
        some ⟨SymbolType.Function, "f".toList, 0,
          hexValue "100000010".toList - hexValue "00000000".toList⟩ := by
  decide

/-- C18: a declaration line without its second attribute is ignored. After
the opening of a function entry, of a data definition or of an address range
and a first value `V` without double quote, if the marker `" NAME="`,
`" SIZE="0x` or `" END="` does not occur in the text after `V`, the line
leaves the state, and so the table, as it is, with the section flag true or
false. -/
theorem C18_missing_second_attribute (st : PState) (ws V rest : List Char)
    (hws : Blank ws) (hV : '"' ∉ V) :
    (¬ NAME_Q_LIT <:+: rest → parse_line (ws ++ FUNCTION_PFX ++ (V ++ rest)) st = st) ∧
      (¬ SIZE_LIT <:+: rest →
        parse_line (ws ++ DEFINED_DATA_PFX ++ (V ++ rest)) st = st) ∧
      (¬ END_LIT <:+: rest →
        parse_line (ws ++ ADDRESS_RANGE_PFX ++ (V ++ rest)) st = st) := by
  refine ⟨?_, ?_, ?_⟩
  · intro h
    have h1 : ¬ NAME_Q_LIT <:+: V ++ rest :=
      fun h2 => h (occurs_after_of_head_not_mem '"' " NAME=\"".toList rest V hV h2)
    have h3 := skip_to_false_of_absent _ _ h1
    rw [parse_line_function ws _ st hws]
    split_ifs
    · unfold function_rule
      rcases hs : skip_to (V ++ rest) NAME_Q_LIT with ⟨r, _ | _⟩
      · rfl
      · rw [hs] at h3; simp at h3
    · rfl
  · intro h
    have h1 : ¬ SIZE_LIT <:+: V ++ rest :=
      fun h2 => h (occurs_after_of_head_not_mem '"' " SIZE=\"0x".toList rest V hV h2)
    have h3 := skip_to_false_of_absent _ _ h1
    rw [parse_line_defined_data ws _ st hws]
    split_ifs
    · unfold defined_data_rule
      rcases hs : skip_to (V ++ rest) SIZE_LIT with ⟨r, _ | _⟩
      · rfl
      · rw [hs] at h3; simp at h3
    · rfl
  · intro h
    have h1 : ¬ END_LIT <:+: V ++ rest :=
      fun h2 => h (occurs_after_of_head_not_mem '"' " END=\"".toList rest V hV h2)
    have h3 := skip_to_false_of_absent _ _ h1
    rw [parse_line_address_range ws _ st hws]
    split_ifs
    · unfold address_range_rule
      rcases hs : skip_to (V ++ rest) END_LIT with ⟨r, _ | _⟩
      · rfl
      · rw [hs] at h3; simp at h3
    · rfl

/-- C18 at a data line whose size is written without `0x`, read with the
data section open: the table keeps its two entries. -/
theorem C18_missing_second_attribute_witness :
    (Blank ([] : List Char) ∧ '"' ∉ "004fee68".toList ∧
      ¬ SIZE_LIT <:+: "\" DATATYPE=\"string\" SIZE=\"24\" />".toList) ∧
    parse_line ([] ++ DEFINED_DATA_PFX ++
        ("004fee68".toList ++ "\" DATATYPE=\"string\" SIZE=\"24\" />".toList))
        sample_state = sample_state ∧
    sample_state.in_data = true :=
  ⟨⟨by decide, by decide, by decide⟩,
    (C18_missing_second_attribute sample_state [] "004fee68".toList
      "\" DATATYPE=\"string\" SIZE=\"24\" />".toList (by decide) (by decide)).2.1
      (by decide),
    rfl⟩

/-- C19: an entry point without a number reads as 0. In the functions
section, a line that after spaces and tabs reads `<FUNCTION ENTRY_POINT="V`
where `V` holds no hexadecimal digit and no double quote (the empty value
among them), then `" NAME="` and a name `n` without double quote, is not
rejected: `strtoull` gives 0 and the entry `{Function, n, k, 4}` is assigned
under `k = (0 - module_offset) mod 2^64`, which is `2^64 - module_offset`
when the base is not 0. -/
theorem C19_no_number_reads_as_zero (st : PState) (ws V n tail : List Char)
    (hws : Blank ws) (hin : st.in_functions = true)
    (hV : ∀ c ∈ V, hexDigit c = none) (hq : '"' ∉ V)
    (hn : '"' ∉ n) (htail : tail = [] ∨ tail.head? = some '"') :
    strtoull16 (V ++ NAME_Q_LIT ++ (n ++ tail)) = 0 ∧
      parse_line (ws ++ FUNCTION_PFX ++ (V ++ NAME_Q_LIT ++ (n ++ tail))) st =
        { st with
          symbols :=
            Table.insert (sub64 0 st.module_offset)
              ⟨SymbolType.Function, n, sub64 0 st.module_offset, 4⟩ st.symbols } ∧
      (parse_line (ws ++ FUNCTION_PFX ++ (V ++ NAME_Q_LIT ++ (n ++ tail))) st).symbols.find
          (sub64 0 st.module_offset) =
        some ⟨SymbolType.Function, n, sub64 0 st.module_offset, 4⟩ ∧
      (0 < st.module_offset → st.module_offset < 2 ^ 64 →
        sub64 0 st.module_offset = 2 ^ 64 - st.module_offset) := by
  have hzero : strtoull16 (V ++ NAME_Q_LIT ++ (n ++ tail)) = 0 := by
    have e1 : V ++ NAME_Q_LIT ++ (n ++ tail) =
        V ++ '"' :: (" NAME=\"".toList ++ (n ++ tail)) := by
      rw [List.append_assoc]; rfl
    rw [e1]
    exact strtou_no_digits 64 V _ hV
  have hleft : ¬ NAME_Q_LIT <:+: V ++ NAME_Q_LIT.dropLast := by
    intro h
    have h1 := occurs_after_of_head_not_mem '"' " NAME=\"".toList NAME_Q_LIT.dropLast V hq h
    have h2 := h1.length_le
    revert h2
    decide
  have hskip : skip_to (V ++ NAME_Q_LIT ++ (n ++ tail)) NAME_Q_LIT = (n ++ tail, true) :=
    skip_to_exact '"' " NAME=\"".toList V (n ++ tail) hleft
      (noRiskyEnd_of_noSelfOverlap _ _ _ (by decide))
  have hmain : parse_line (ws ++ FUNCTION_PFX ++ (V ++ NAME_Q_LIT ++ (n ++ tail))) st =
      { st with
        symbols :=
          Table.insert (sub64 0 st.module_offset)
            ⟨SymbolType.Function, n, sub64 0 st.module_offset, 4⟩ st.symbols } := by
    rw [parse_line_function ws _ st hws, if_pos hin]
    unfold function_rule
    simp only [hskip, hzero, read_name_append n tail hn htail]
  refine ⟨hzero, hmain, ?_, fun h0 hm => sub64_zero _ h0 hm⟩
  rw [hmain]
  exact Table.find_insert_self _ _ _

/-- C19 at the line `<FUNCTION ENTRY_POINT="" NAME="f">`, read after the base
line of the example and `<FUNCTIONS>`: the entry lands under
`2^64 - 0x400000`. -/
theorem C19_no_number_reads_as_zero_witness :
    (Blank ([] : List Char) ∧
      (parse_lines [ex_program, "<FUNCTIONS>".toList] PState.init).in_functions = true ∧
      (∀ c ∈ ([] : List Char), hexDigit c = none) ∧ '"' ∉ ([] : List Char) ∧
      '"' ∉ "f".toList ∧ ("\">".toList = [] ∨ "\">".toList.head? = some '"')) ∧
    parse_line ([] ++ FUNCTION_PFX ++ ([] ++ NAME_Q_LIT ++ ("f".toList ++ "\">".toList)))
        (parse_lines [ex_program, "<FUNCTIONS>".toList] PState.init) =
      ⟨true, false, false, 0x400000,
        [(2 ^ 64 - 0x400000, ⟨SymbolType.Function, "f".toList, 2 ^ 64 - 0x400000, 4⟩)]⟩ ∧
    [] ++ FUNCTION_PFX ++ ([] ++ NAME_Q_LIT ++ ("f".toList ++ "\">".toList)) =
      "<FUNCTION ENTRY_POINT=\"\" NAME=\"f\">".toList :=
  ⟨⟨by decide, by decide, by decide, by decide, by decide, Or.inr rfl⟩,
    ((C19_no_number_reads_as_zero
      (parse_lines [ex_program, "<FUNCTIONS>".toList] PState.init) [] [] "f".toList
      "\">".toList (by decide) (by decide) (by decide) (by decide) (by decide)
      (Or.inr rfl)).2.1).trans (by decide),
    by decide⟩

/-- C20: for a literal whose first character does not come back at its
positions `1 .. n-2`, `skip_to` answers `true` exactly when the literal
occurs in the text, and then the text read is `pre ++ L` with the cursor at
the rest `r`, where no occurrence of `L` starts before `pre` ends: the cursor
is just after the leftmost occurrence. The condition holds for the literals
`IMAGE_BASE="`, `" NAME="`, `" END="`, ` NAME="`, ` NAMESPACE=""`,
` TYPE="global"` and ` PRIMARY="y"`, and fails for `" SIZE="0x`. -/
theorem C20_skip_to_exact_without_overlap (s L : List Char) (h : NoSelfOverlap L) :
    ((skip_to s L).2 = true ↔ L <:+: s) ∧
      (∀ r, skip_to s L = (r, true) →
        ∃ pre, s = pre ++ L ++ r ∧
          ∀ pre1 post1, s = pre1 ++ L ++ post1 → pre.length ≤ pre1.length) ∧
      (NoSelfOverlap IMAGE_BASE_LIT ∧ NoSelfOverlap NAME_Q_LIT ∧ NoSelfOverlap END_LIT ∧
        NoSelfOverlap NAME_LIT ∧ NoSelfOverlap NAMESPACE_LIT ∧ NoSelfOverlap TYPE_LIT ∧
        NoSelfOverlap PRIMARY_LIT ∧ ¬ NoSelfOverlap SIZE_LIT) := by
  refine ⟨?_, ?_, by decide⟩
  · constructor
    · intro ht
      cases hr : skip_to s L with
      | mk r b =>
        rw [hr] at ht
        simp only at ht
        subst ht
        exact (skip_to_true_occurs s L r hr).1
    · rintro ⟨a, b, hab⟩
      cases L with
      | nil => cases s <;> simp [skip_to, skip_to_loop]
      | cons x L' =>
        obtain ⟨r, hr, -⟩ := skip_to_finds x L' h a b
        rw [← hab, hr]
  · intro r hr
    cases L with
    | nil =>
      have hs : skip_to s [] = (s, true) := by cases s <;> simp [skip_to, skip_to_loop]
      rw [hs] at hr
      simp only [Prod.mk.injEq, and_true] at hr
      subst hr
      exact ⟨[], by simp, fun _ _ _ => Nat.zero_le _⟩
    | cons x L' =>
      obtain ⟨a, b, hab⟩ := (skip_to_true_occurs s _ r hr).1
      obtain ⟨pre, post, h1, h2, -⟩ :=
        exists_leftmost (x :: L') (by simp) a.length a b s le_rfl hab.symm
      have h3 := skip_to_exact x L' pre post h2 (noRiskyEnd_of_noSelfOverlap x L' pre h)
      rw [← h1, hr] at h3
      simp only [Prod.mk.injEq, and_true] at h3
      subst h3
      refine ⟨pre, h1, ?_⟩
      intro pre1 post1 e
      exact leftmost_length_le (x :: L') pre r pre1 post1 (by simp) h2 (h1.symm.trans e)

/-- C20 at the text after the prefix of the function line of the example and
the literal `" NAME="`: the cursor is left at `gets_s"`. -/
theorem C20_skip_to_exact_without_overlap_witness :
    NoSelfOverlap NAME_Q_LIT ∧
      ((skip_to "00401005\" NAME=\"gets_s\" LIBRARY_FUNCTION=\"n\">".toList NAME_Q_LIT).2 = true ↔
        NAME_Q_LIT <:+: "00401005\" NAME=\"gets_s\" LIBRARY_FUNCTION=\"n\">".toList) ∧
      skip_to "00401005\" NAME=\"gets_s\" LIBRARY_FUNCTION=\"n\">".toList NAME_Q_LIT =
        ("gets_s\" LIBRARY_FUNCTION=\"n\">".toList, true) :=
  ⟨by decide,
    (C20_skip_to_exact_without_overlap
      "00401005\" NAME=\"gets_s\" LIBRARY_FUNCTION=\"n\">".toList NAME_Q_LIT (by decide)).1,
    by decide⟩

end GhidraSym
